import Mathlib

/-!
# arena.h — a bump allocator, embedded from the C source

The embedding follows `src/arena.h` function by function.

* Data model: LP64. `unsigned long` is 64 bits wide, `unsigned int` is 32 bits wide and
  `sizeof(unsigned long) = 8`. Unsigned arithmetic is written on `Nat` with an explicit
  reduction modulo `2 ^ 64` (or `2 ^ 32` for the conversion to `unsigned int`).
* Pointers are addresses in `Nat`; `ARENA_NULL` is address `0`. Pointer arithmetic
  `p + k` is plain addition (C pointer arithmetic inside an object never wraps).
* Memory is a byte map `Mem = Nat → Nat` from addresses to byte values.
* Function pointers are `Nat` identifiers with `0` the null function pointer; what a call
  through the allocator pointer returns is supplied by a `Provider`.
* The statistics counters (`ARENA_COLLECT_STATISTICS`) are off by default and not modelled.
-/

namespace Arena

/-! ## Machine arithmetic -/

/-- Modulus of `unsigned long` arithmetic (LP64). -/
def ULONG_MOD : Nat := 2 ^ 64

/-- Modulus of `unsigned int` arithmetic. -/
def UINT_MOD : Nat := 2 ^ 32

/-- Size in bytes of an `unsigned long`. -/
def SIZEOF_ULONG : Nat := 8

/-- Addition of two `unsigned long` values. -/
def ul_add (x y : Nat) : Nat := (x + y) % ULONG_MOD

/-- Subtraction of two `unsigned long` values (wraps below zero). -/
def ul_sub (x y : Nat) : Nat := (x + (ULONG_MOD - y % ULONG_MOD)) % ULONG_MOD

/-- The null pointer `((void *)0)`. -/
def ARENA_NULL : Nat := 0

/-- Default alignment, `#define ARENA_ALIGNMENT 16`. -/
def ARENA_ALIGNMENT : Nat := 16

/-- The macro `ARENA_ALIGN(size) = ((size) + (ARENA_ALIGNMENT - 1)) & ~(ARENA_ALIGNMENT - 1)`
evaluated in `unsigned long`: the sum wraps modulo `2 ^ 64` and `~15` converts to
`2 ^ 64 - 1 - 15`. -/
def ARENA_ALIGN (size : Nat) : Nat :=
  ul_add size (ARENA_ALIGNMENT - 1) &&& (ULONG_MOD - 1 - (ARENA_ALIGNMENT - 1))

/-- The specification's `align(n)`: `n` rounded up to the next multiple of the alignment,
as a mathematical integer (no wrap-around, no truncation). -/
def align (n : Nat) : Nat := (n + (ARENA_ALIGNMENT - 1)) / ARENA_ALIGNMENT * ARENA_ALIGNMENT

/-! ## Data model -/

/-- The C struct `arena`. `base` is the address of the owned block, `allocator` and
`deallocator` are function pointers. -/
structure arena where
  base : Nat
  offset : Nat
  offset_last : Nat
  size : Nat
  allocator : Nat
  deallocator : Nat
deriving DecidableEq

/-- Byte-addressed memory. -/
abbrev Mem : Type := Nat → Nat

/-- The memory provider seen from `arena_init`: the two default function pointers
(`allocator_default`, `deallocator_default`) and the outcome of calling an allocator
function pointer on a byte count (the returned block address, `0` on failure). -/
structure Provider where
  allocator_default : Nat
  deallocator_default : Nat
  call : Nat → Nat → Nat

/-- All `unsigned long` fields hold `unsigned long` values. -/
def arena.inRange (a : arena) : Prop :=
  a.offset < ULONG_MOD ∧ a.offset_last < ULONG_MOD ∧ a.size < ULONG_MOD

instance (a : arena) : Decidable a.inRange := by
  unfold arena.inRange; infer_instance

/-! ## Operations -/

/-- The function `arena_init`: returns the `int` result and the arena after the call. -/
def arena_init (pv : Provider) (a : arena) (size : Nat) : Nat × arena :=
  if a.base = ARENA_NULL then
    let a1 := if a.allocator = 0 then { a with allocator := pv.allocator_default } else a
    let a2 := if a1.deallocator = 0 then { a1 with deallocator := pv.deallocator_default } else a1
    let a3 := { a2 with base := pv.call a2.allocator size }
    if a3.base = ARENA_NULL then (0, a3)
    else (1, { a3 with size := size, offset := 0, offset_last := 0 })
  else (1, a)

/-- The function `arena_malloc`: returns the pointer result and the arena after the call.
`_size` is an `unsigned int`, so the aligned size is reduced modulo `2 ^ 32`. -/
def arena_malloc (a : arena) (size : Nat) : Nat × arena :=
  let _size := ARENA_ALIGN size % UINT_MOD
  if ul_add a.offset _size > a.size then (ARENA_NULL, a)
  else
    let _ptr := a.base + a.offset
    (_ptr, { a with offset_last := a.offset,
                    offset := ul_add a.offset (if _ptr ≠ ARENA_NULL then _size else 0) })

/-- One pass of the word loop of `arena_memcpy`, for index `i`: eight bytes are loaded from
`s + i * 8` and then stored at `d + i * 8`. -/
def copy_word (m : Mem) (d s i : Nat) : Mem :=
  fun p =>
    if d + i * SIZEOF_ULONG ≤ p ∧ p < d + i * SIZEOF_ULONG + SIZEOF_ULONG then
      m (s + i * SIZEOF_ULONG + (p - (d + i * SIZEOF_ULONG)))
    else m p

/-- Memory after the first `k` passes of `for (i = 0; i < chunk_count; i++)`. -/
def word_loop (m : Mem) (d s : Nat) : Nat → Mem
  | 0 => m
  | k + 1 => copy_word (word_loop m d s k) d s k

/-- One pass of the byte loop of `arena_memcpy`, for index `i`:
`d[chunk_count * 8 + i] = s[chunk_count * 8 + i]`. -/
def copy_byte (m : Mem) (d s chunk_count i : Nat) : Mem :=
  fun p =>
    if p = d + (chunk_count * SIZEOF_ULONG + i) then m (s + (chunk_count * SIZEOF_ULONG + i))
    else m p

/-- Memory after the first `k` passes of `for (i = 0; i < remaining_bytes; i++)`. -/
def byte_loop (m : Mem) (d s chunk_count : Nat) : Nat → Mem
  | 0 => m
  | k + 1 => copy_byte (byte_loop m d s chunk_count k) d s chunk_count k

/-- The function `arena_memcpy`: the memory after copying `n` bytes from `src` to `dest`,
front to back, in words of eight bytes and then byte by byte. -/
def arena_memcpy (m : Mem) (dest src n : Nat) : Mem :=
  if dest = src then m
  else
    let chunk_count := n / SIZEOF_ULONG
    let m1 := word_loop m dest src chunk_count
    let remaining_bytes := n % SIZEOF_ULONG
    if remaining_bytes > 0 then byte_loop m1 dest src chunk_count remaining_bytes else m1

/-- The function `arena_realloc`: returns the pointer result, the arena and the memory after
the call. -/
def arena_realloc (a : arena) (m : Mem) (ptr new_size : Nat) : Nat × arena × Mem :=
  let new_size := ARENA_ALIGN new_size
  if ptr = ARENA_NULL then
    ((arena_malloc a new_size).1, (arena_malloc a new_size).2, m)
  else
    let cptr := ptr
    -- slow path: allocate new arena memory and copy
    let new_ptr := (arena_malloc a new_size).1
    let slow : Nat × arena × Mem :=
      if new_ptr ≠ ARENA_NULL then
        (new_ptr, (arena_malloc a new_size).2, arena_memcpy m new_ptr cptr new_size)
      else (new_ptr, (arena_malloc a new_size).2, m)
    -- fast path: if it is the last allocation, extend in place
    if cptr = a.base + a.offset_last then
      let old_size := ul_sub a.offset a.offset_last
      if ul_add a.offset (ul_sub new_size old_size) ≤ a.size then
        (ptr, { a with offset_last := a.offset,
                       offset := ul_add a.offset (ul_sub new_size old_size) }, m)
      else slow
    else slow

/-- The function `arena_reset`. -/
def arena_reset (a : arena) : arena :=
  { a with offset := 0, offset_last := 0 }

/-- The function `arena_free`: returns the arena after the call and the calls made through
the deallocator pointer, each as (function pointer, argument). -/
def arena_free (a : arena) : arena × List (Nat × Nat) :=
  if a.base ≠ ARENA_NULL then
    ({ a with base := ARENA_NULL, offset := 0, offset_last := 0, size := 0 },
      [(a.deallocator, a.base)])
  else (a, [])

/-! ## The copy with bounds-checked accesses -/

/-- Address ranges a copy may touch: loads in `[rlo, rhi)`, stores in `[wlo, whi)`. -/
structure Bounds where
  rlo : Nat
  rhi : Nat
  wlo : Nat
  whi : Nat

/-- Load of the byte at `p`, `none` when `p` lies outside the load range. -/
def Bounds.load (b : Bounds) (m : Mem) (p : Nat) : Option Nat :=
  if b.rlo ≤ p ∧ p < b.rhi then some (m p) else none

/-- Store of `v` at `p`, `none` when `p` lies outside the store range. -/
def Bounds.store (b : Bounds) (m : Mem) (p v : Nat) : Option Mem :=
  if b.wlo ≤ p ∧ p < b.whi then some (fun q => if q = p then v else m q) else none

/-- Load of the `k` bytes from `p` on, each through `Bounds.load`; byte `j` of the result
is the byte at `p + j`. -/
def Bounds.loads (b : Bounds) (m : Mem) (p : Nat) : Nat → Option (Nat → Nat)
  | 0 => some (fun _ => 0)
  | k + 1 =>
    (b.loads m p k).bind
      (fun w => (b.load m (p + k)).map (fun v => fun j => if j = k then v else w j))

/-- Store of the first `k` bytes of `w` from `p` on, each through `Bounds.store`. -/
def Bounds.stores (b : Bounds) (m : Mem) (p : Nat) (w : Nat → Nat) : Nat → Option Mem
  | 0 => some m
  | k + 1 => (b.stores m p w k).bind (fun m1 => b.store m1 (p + k) (w k))

/-- One pass of the word loop of `arena_memcpy` with checked accesses: the eight bytes at
`s + i * 8` are loaded, then stored at `d + i * 8`. -/
def copy_word_checked (b : Bounds) (m : Mem) (d s i : Nat) : Option Mem :=
  (b.loads m (s + i * SIZEOF_ULONG) SIZEOF_ULONG).bind
    (fun w => b.stores m (d + i * SIZEOF_ULONG) w SIZEOF_ULONG)

/-- The first `k` passes of the word loop with checked accesses. -/
def word_loop_checked (b : Bounds) (m : Mem) (d s : Nat) : Nat → Option Mem
  | 0 => some m
  | k + 1 => (word_loop_checked b m d s k).bind (fun m1 => copy_word_checked b m1 d s k)

/-- One pass of the byte loop of `arena_memcpy` with checked accesses:
`d[chunk_count * 8 + i] = s[chunk_count * 8 + i]`. -/
def copy_byte_checked (b : Bounds) (m : Mem) (d s chunk_count i : Nat) : Option Mem :=
  (b.load m (s + (chunk_count * SIZEOF_ULONG + i))).bind
    (fun v => b.store m (d + (chunk_count * SIZEOF_ULONG + i)) v)

/-- The first `k` passes of the byte loop with checked accesses. -/
def byte_loop_checked (b : Bounds) (m : Mem) (d s chunk_count : Nat) : Nat → Option Mem
  | 0 => some m
  | k + 1 =>
    (byte_loop_checked b m d s chunk_count k).bind
      (fun m1 => copy_byte_checked b m1 d s chunk_count k)

/-- The function `arena_memcpy` with every access made through `Bounds.load` and
`Bounds.store`: the memory after the copy, or `none` as soon as an access leaves its
range. -/
def arena_memcpy_checked (b : Bounds) (m : Mem) (dest src n : Nat) : Option Mem :=
  if dest = src then some m
  else
    let chunk_count := n / SIZEOF_ULONG
    let remaining_bytes := n % SIZEOF_ULONG
    (word_loop_checked b m dest src chunk_count).bind
      (fun m1 =>
        if remaining_bytes > 0 then byte_loop_checked b m1 dest src chunk_count remaining_bytes
        else some m1)

/-- The function `arena_realloc` with the slow path's copy made through
`arena_memcpy_checked`: the result of `arena_realloc`, or `none` when an access of the copy
leaves its range. -/
def arena_realloc_checked (b : Bounds) (a : arena) (m : Mem) (ptr new_size : Nat) :
    Option (Nat × arena × Mem) :=
  let new_size := ARENA_ALIGN new_size
  if ptr = ARENA_NULL then
    some ((arena_malloc a new_size).1, (arena_malloc a new_size).2, m)
  else
    let cptr := ptr
    -- slow path: allocate new arena memory and copy
    let new_ptr := (arena_malloc a new_size).1
    let slow : Option (Nat × arena × Mem) :=
      if new_ptr ≠ ARENA_NULL then
        (arena_memcpy_checked b m new_ptr cptr new_size).map
          (fun m1 => (new_ptr, (arena_malloc a new_size).2, m1))
      else some (new_ptr, (arena_malloc a new_size).2, m)
    -- fast path: if it is the last allocation, extend in place
    if cptr = a.base + a.offset_last then
      let old_size := ul_sub a.offset a.offset_last
      if ul_add a.offset (ul_sub new_size old_size) ≤ a.size then
        some (ptr, { a with offset_last := a.offset,
                            offset := ul_add a.offset (ul_sub new_size old_size) }, m)
      else slow
    else slow

/-! ## Reachable states and call sequences -/

/-- Arena states reachable from a successful `arena_init` by any sequence of calls of
`arena_init`, `arena_malloc`, `arena_realloc`, `arena_reset` and `arena_free`. -/
inductive Reachable : arena → Prop
  | init (pv : Provider) (a0 : arena) (size : Nat) :
      a0.inRange → size < ULONG_MOD → (arena_init pv a0 size).1 = 1 →
      Reachable (arena_init pv a0 size).2
  | reinit (pv : Provider) (a : arena) (size : Nat) :
      Reachable a → size < ULONG_MOD → Reachable (arena_init pv a size).2
  | malloc (a : arena) (n : Nat) : Reachable a → Reachable (arena_malloc a n).2
  | realloc (a : arena) (m : Mem) (ptr n : Nat) :
      Reachable a → Reachable (arena_realloc a m ptr n).2.1
  | reset (a : arena) : Reachable a → Reachable (arena_reset a)
  | free (a : arena) : Reachable a → Reachable (arena_free a).1

/-- Arena states reachable from an `arena_init` that acquired a block (the arena had a null
base and the call returned 1) by any sequence of calls of `arena_init`, `arena_malloc`,
`arena_realloc`, `arena_reset` and `arena_free`. -/
inductive FromInit : arena → Prop
  | init (pv : Provider) (a0 : arena) (size : Nat) :
      a0.base = ARENA_NULL → size < ULONG_MOD → (arena_init pv a0 size).1 = 1 →
      FromInit (arena_init pv a0 size).2
  | reinit (pv : Provider) (a : arena) (size : Nat) :
      FromInit a → size < ULONG_MOD → FromInit (arena_init pv a size).2
  | malloc (a : arena) (n : Nat) : FromInit a → FromInit (arena_malloc a n).2
  | realloc (a : arena) (m : Mem) (ptr n : Nat) :
      FromInit a → FromInit (arena_realloc a m ptr n).2.1
  | reset (a : arena) : FromInit a → FromInit (arena_reset a)
  | free (a : arena) : FromInit a → FromInit (arena_free a).1

/-- One allocating call with its arguments; `realloc ptr n` passes the pointer itself. -/
inductive Call where
  | malloc (n : Nat)
  | realloc (ptr n : Nat)
deriving DecidableEq

/-- Result pointer, arena and memory after an allocating call. -/
def Call.exec (a : arena) (m : Mem) : Call → Nat × arena × Mem
  | .malloc n => ((arena_malloc a n).1, (arena_malloc a n).2, m)
  | .realloc ptr n => arena_realloc a m ptr n

/-- Size requested by an allocating call. -/
def Call.bytes : Call → Nat
  | .malloc n => n
  | .realloc _ n => n

/-- The call is an `arena_realloc` that takes the fast path (the two guards at the head of
`arena_realloc` hold and the function returns from inside them). -/
def Call.inPlace (a : arena) : Call → Prop
  | .malloc _ => False
  | .realloc ptr n =>
    ptr ≠ ARENA_NULL ∧ ptr = a.base + a.offset_last ∧
      ul_add a.offset (ul_sub (ARENA_ALIGN n) (ul_sub a.offset a.offset_last)) ≤ a.size

instance (a : arena) (c : Call) : Decidable (c.inPlace a) := by
  cases c <;> unfold Call.inPlace <;> infer_instance

/-- Pointers returned by a sequence of `arena_malloc` calls with the given sizes. -/
def malloc_run (a : arena) : List Nat → List Nat
  | [] => []
  | n :: ns => (arena_malloc a n).1 :: malloc_run (arena_malloc a n).2 ns

/-- A caller's request. `realloc k n` passes to `arena_realloc` the pointer that call number
`k` of the sequence returned (the null pointer when that call failed or is yet to come). -/
inductive Request where
  | malloc (n : Nat)
  | realloc (k n : Nat)
deriving DecidableEq

/-- Size requested by a call. -/
def Request.bytes : Request → Nat
  | .malloc n => n
  | .realloc _ n => n

/-- What the caller holds for one call of the sequence: the pointer the call returned, the
aligned size it asked for, and whether the region is still held (a pointer stops being held
when it is resized in place by a later call, whose result holds the region from then on). -/
structure Entry where
  ptr : Nat
  len : Nat
  live : Bool
deriving DecidableEq

/-- Arena, memory and the caller's record of the calls made so far, one entry per call. -/
structure Client where
  a : arena
  m : Mem
  log : List Entry

/-- Pointer returned by call number `k` (null when there is no such call). -/
def Client.ptrOf (c : Client) (k : Nat) : Nat := (c.log.getD k ⟨ARENA_NULL, 0, false⟩).ptr

/-- Mark entry `k` as no longer held. -/
def retire (log : List Entry) (k : Nat) : List Entry :=
  log.set k { log.getD k ⟨ARENA_NULL, 0, false⟩ with live := false }

/-- Run one request on the arena and record its result. -/
def Client.step (c : Client) : Request → Client
  | .malloc n =>
    let r := arena_malloc c.a n
    { a := r.2, m := c.m, log := c.log ++ [⟨r.1, align n, decide (r.1 ≠ ARENA_NULL)⟩] }
  | .realloc k n =>
    let ptr := c.ptrOf k
    let r := arena_realloc c.a c.m ptr n
    let log := if r.1 ≠ ARENA_NULL ∧ r.1 = ptr then retire c.log k else c.log
    { a := r.2.1, m := r.2.2, log := log ++ [⟨r.1, align n, decide (r.1 ≠ ARENA_NULL)⟩] }

/-- Run a sequence of requests. -/
def Client.run (c : Client) (rs : List Request) : Client := rs.foldl Client.step c

/-- Two held regions `[ptr, ptr + len)` have no byte in common. -/
def Entry.disjoint (e f : Entry) : Prop :=
  e.len = 0 ∨ f.len = 0 ∨ e.ptr + e.len ≤ f.ptr ∨ f.ptr + f.len ≤ e.ptr

instance (e f : Entry) : Decidable (e.disjoint f) := by
  unfold Entry.disjoint; infer_instance

/-- The regions held by two distinct calls are pairwise disjoint. -/
def NoOverlap (log : List Entry) : Prop :=
  ∀ i j : Nat, i ≠ j → ∀ e f : Entry, log[i]? = some e → log[j]? = some f →
    e.live = true → f.live = true → e.disjoint f

/-- The request asks for a size whose aligned value is non-zero and fits an `unsigned int`. -/
def Request.sized (r : Request) : Prop := 0 < align r.bytes ∧ align r.bytes < UINT_MOD

instance (r : Request) : Decidable r.sized := by
  unfold Request.sized; infer_instance

/-! ## Invariants used in the proofs -/

/-- Either the arena owns a block or both offsets are zero. -/
def Settled (a : arena) : Prop := a.base ≠ ARENA_NULL ∨ (a.offset = 0 ∧ a.offset_last = 0)

/-- Both offsets lie within the capacity, which is an `unsigned long`. -/
def Bounded (a : arena) : Prop :=
  a.offset ≤ a.size ∧ a.offset_last ≤ a.size ∧ a.size < ULONG_MOD

/-- Both offsets are multiples of the alignment. -/
def Aligned (a : arena) : Prop :=
  a.offset % ARENA_ALIGNMENT = 0 ∧ a.offset_last % ARENA_ALIGNMENT = 0

/-- Invariant of a caller's record under requests of non-zero aligned size below `2 ^ 32` on
an arena of at most `2 ^ 64 - 2 ^ 32` bytes: every returned pointer lies below the bump
offset and at or below `offset_last`; held regions end at or below the bump offset and are
separated; and every other held region ends at or below a pointer found at `offset_last`. -/
structure Inv (c : Client) : Prop where
  base_ne : c.a.base ≠ ARENA_NULL
  cap : c.a.size + UINT_MOD ≤ ULONG_MOD
  off_le : c.a.offset ≤ c.a.size
  below : ∀ (i : Nat) (e : Entry), c.log[i]? = some e → e.ptr ≠ ARENA_NULL →
    e.ptr < c.a.base + c.a.offset ∧ e.ptr ≤ c.a.base + c.a.offset_last
  ends : ∀ (i : Nat) (e : Entry), c.log[i]? = some e → e.live = true →
    e.ptr + e.len ≤ c.a.base + c.a.offset
  sep : ∀ (i j : Nat) (e f : Entry), i ≠ j → c.log[i]? = some e → c.log[j]? = some f →
    e.live = true → f.live = true → e.ptr + e.len ≤ f.ptr ∨ f.ptr + f.len ≤ e.ptr
  tail : ∀ (k : Nat) (e : Entry), c.log[k]? = some e → e.ptr = c.a.base + c.a.offset_last →
    ∀ (j : Nat) (f : Entry), j ≠ k → c.log[j]? = some f → f.live = true →
      f.ptr + f.len ≤ e.ptr

/-- The three effects a request of aligned size `L` can have on the arena and on the
caller's record: failure, a newly allocated region at the bump offset, or the region of
call `k` resized in place. -/
inductive Outcome (c c' : Client) (L : Nat) : Prop
  | fail : c'.a = c.a → c'.log = c.log ++ [⟨ARENA_NULL, L, false⟩] → Outcome c c' L
  | fresh : c.a.offset + L ≤ c.a.size →
      c'.a = { c.a with offset_last := c.a.offset, offset := c.a.offset + L } →
      c'.log = c.log ++ [⟨c.a.base + c.a.offset, L, true⟩] → Outcome c c' L
  | grown (k : Nat) (e0 : Entry) : c.log[k]? = some e0 →
      e0.ptr = c.a.base + c.a.offset_last → e0.ptr ≠ ARENA_NULL →
      c.a.offset_last + L ≤ c.a.size →
      c'.a = { c.a with offset_last := c.a.offset, offset := c.a.offset_last + L } →
      c'.log = retire c.log k ++ [⟨e0.ptr, L, true⟩] → Outcome c c' L

/-! ## Fixtures: the arena of the test program -/

/-- A provider whose allocator hands out a block at address `65536`. -/
def pv0 : Provider := ⟨1, 2, fun _ _ => 65536⟩

/-- A provider whose allocator fails. -/
def pvFail : Provider := ⟨1, 2, fun _ _ => 0⟩

/-- The zero-initialised arena `arena arena = {0}`. -/
def arena0 : arena := ⟨0, 0, 0, 0, 0, 0⟩

/-- The arena right after `arena_init(&arena, 1024 * 1024 * 10)`. -/
def arena1 : arena := (arena_init pv0 arena0 10485760).2

/-- A memory whose byte at address `p` is `p % 251`. -/
def mem0 : Mem := fun p => p % 251

/-! ## Arithmetic lemmas -/

theorem ULONG_MOD_val : ULONG_MOD = 18446744073709551616 := by
  norm_num [ULONG_MOD]

theorem UINT_MOD_val : UINT_MOD = 4294967296 := by
  norm_num [UINT_MOD]

/-- Masking with `~15` clears the low four bits of a 64-bit value. -/
theorem land_mask (x : Nat) (hx : x < 2 ^ 64) : x &&& (2 ^ 64 - 1 - 15) = x / 16 * 16 := by
  apply Nat.eq_of_testBit_eq
  intro i
  have h1 : (2 : Nat) ^ 64 - 1 - 15 = 2 ^ 4 * (2 ^ 60 - 1) := by norm_num
  have h2 : x / 16 * 16 = 2 ^ 4 * (x >>> 4) := by
    rw [Nat.shiftRight_eq_div_pow]; norm_num [Nat.mul_comm]
  rw [Nat.testBit_and, h1, h2, Nat.testBit_mul_pow_two, Nat.testBit_mul_pow_two,
    Nat.testBit_two_pow_sub_one, Nat.testBit_shiftRight]
  by_cases h : 4 ≤ i
  · have e : 4 + (i - 4) = i := by omega
    simp only [ge_iff_le, h, decide_True, Bool.true_and, e]
    by_cases h' : i - 4 < 60
    · simp [h']
    · have hb : x.testBit i = false := by
        apply Nat.testBit_eq_false_of_lt
        calc x < 2 ^ 64 := hx
          _ ≤ 2 ^ i := Nat.pow_le_pow_right (by norm_num) (by omega)
      simp [h', hb]
  · simp [h]

/-- The macro as arithmetic: add 15 modulo `2 ^ 64`, then round down to a multiple of 16. -/
theorem ARENA_ALIGN_eq (n : Nat) :
    ARENA_ALIGN n = (n + 15) % 18446744073709551616 / 16 * 16 := by
  have hlt : (n + 15) % 18446744073709551616 < 2 ^ 64 := by
    have : (2 : Nat) ^ 64 = 18446744073709551616 := by norm_num
    rw [this]; exact Nat.mod_lt _ (by norm_num)
  have := land_mask _ hlt
  simp only [ARENA_ALIGN, ul_add, ARENA_ALIGNMENT, ULONG_MOD]
  norm_num at this ⊢
  exact this

theorem align_eq (n : Nat) : align n = (n + 15) / 16 * 16 := by
  simp [align, ARENA_ALIGNMENT]

/-- Without wrap-around the macro computes the mathematical `align`. -/
theorem ARENA_ALIGN_of_lt (n : Nat) (h : n + 15 < 18446744073709551616) :
    ARENA_ALIGN n = align n := by
  rw [ARENA_ALIGN_eq, align_eq, Nat.mod_eq_of_lt h]

theorem ARENA_ALIGN_lt (n : Nat) : ARENA_ALIGN n + 15 < 18446744073709551616 := by
  rw [ARENA_ALIGN_eq]; omega

/-- Aligning an already aligned size changes nothing. -/
theorem ARENA_ALIGN_idem (n : Nat) : ARENA_ALIGN (ARENA_ALIGN n) = ARENA_ALIGN n := by
  have h := ARENA_ALIGN_lt n
  rw [ARENA_ALIGN_eq (ARENA_ALIGN n), Nat.mod_eq_of_lt h, ARENA_ALIGN_eq n]
  omega

/-! ## C1 -/

/-- A request that fits: `arena_malloc` in full when `align n < 2 ^ 32` and
`offset + align n ≤ size`. -/
theorem malloc_of_fit (a : arena) (n : Nat)
    (hbase : a.base ≠ ARENA_NULL) (hsize : a.size < ULONG_MOD)
    (h32 : align n < 2 ^ 32) (hfit : a.offset + align n ≤ a.size) :
    arena_malloc a n =
      (a.base + a.offset,
        { base := a.base, offset := a.offset + align n, offset_last := a.offset,
          size := a.size, allocator := a.allocator, deallocator := a.deallocator }) := by
  rw [ULONG_MOD_val] at hsize
  rw [align_eq] at h32 hfit
  have hn : n + 15 < 18446744073709551616 := by omega
  have hA : ARENA_ALIGN n = align n := ARENA_ALIGN_of_lt n hn
  have hp : a.base + a.offset ≠ 0 := by
    simp only [ARENA_NULL] at hbase; omega
  simp only [arena_malloc, hA, ul_add, ULONG_MOD_val, UINT_MOD_val, ARENA_NULL]
  rw [align_eq]
  have e1 : (n + 15) / 16 * 16 % 4294967296 = (n + 15) / 16 * 16 := Nat.mod_eq_of_lt (by omega)
  have e2 : (a.offset + (n + 15) / 16 * 16) % 18446744073709551616
      = a.offset + (n + 15) / 16 * 16 := Nat.mod_eq_of_lt (by omega)
  simp only [e1, e2, hp, ne_eq, not_false_eq_true, if_true]
  rw [if_neg (by omega)]

/-- C1: for every arena with non-null base whose capacity is an `unsigned long`, and
every request `n` with `align n < 2 ^ 32` and `offset + align n ≤ size`, `arena_malloc`
returns `base + offset`, records the old offset in `offset_last`, advances `offset` by
`align n`, and leaves base, size and the provider fields unchanged. -/
theorem arena_malloc_success (a : arena) (n : Nat)
    (hbase : a.base ≠ ARENA_NULL) (hsize : a.size < ULONG_MOD)
    (h32 : align n < 2 ^ 32) (hfit : a.offset + align n ≤ a.size) :
    arena_malloc a n =
      (a.base + a.offset,
        { base := a.base, offset := a.offset + align n, offset_last := a.offset,
          size := a.size, allocator := a.allocator, deallocator := a.deallocator }) :=
  malloc_of_fit a n hbase hsize h32 hfit

/-- C1 at the first call of the test: 40 bytes from a fresh 10 MiB arena. -/
theorem arena_malloc_success_witness :
    (⟨4096, 0, 0, 10485760, 1, 2⟩ : arena).base ≠ ARENA_NULL ∧
    arena_malloc ⟨4096, 0, 0, 10485760, 1, 2⟩ 40 = (4096, ⟨4096, 48, 0, 10485760, 1, 2⟩) :=
  ⟨by decide,
   arena_malloc_success ⟨4096, 0, 0, 10485760, 1, 2⟩ 40 (by decide) (by decide) (by decide)
     (by decide)⟩

/-! ## C2 -/

/-- C2: evaluation of `arena_malloc` at a request of `2 ^ 32` bytes on the fresh 10 MiB arena.
The aligned size `2 ^ 32` is cut to `unsigned int` zero, so the call returns the
non-null pointer `base` and reserves nothing, although `offset + align n > size`. -/
theorem arena_malloc_truncates_request :
    arena1 = ⟨65536, 0, 0, 10485760, 1, 2⟩ ∧
    arena1.offset + align 4294967296 > arena1.size ∧
    arena_malloc arena1 4294967296 = (65536, ⟨65536, 0, 0, 10485760, 1, 2⟩) := by
  decide

/-! ## C4 -/

/-- The fast-path offset `offset + (new_size - old_size)` is `offset_last + new_size`
modulo `2 ^ 64`, whatever the order of the operands. -/
theorem fast_offset (off ol new : Nat) :
    ul_add off (ul_sub new (ul_sub off ol)) = (ol + new) % 18446744073709551616 := by
  simp only [ul_add, ul_sub, ULONG_MOD_val]
  omega

/-- Reallocating the pointer at `offset_last` stays in place whenever the new aligned size
fits behind `offset_last`. -/
theorem realloc_tail_in_place (a : arena) (m : Mem) (ptr new_size : Nat)
    (hsize : a.size < ULONG_MOD)
    (hptr : ptr ≠ ARENA_NULL) (htail : ptr = a.base + a.offset_last)
    (hfit : a.offset_last + align new_size ≤ a.size) :
    arena_realloc a m ptr new_size =
      (ptr,
        { base := a.base, offset := a.offset_last + align new_size, offset_last := a.offset,
          size := a.size, allocator := a.allocator, deallocator := a.deallocator },
        m) := by
  rw [ULONG_MOD_val] at hsize
  have hn : new_size + 15 < 18446744073709551616 := by
    rw [align_eq] at hfit; omega
  have hA : ARENA_ALIGN new_size = align new_size := ARENA_ALIGN_of_lt new_size hn
  have hf := fast_offset a.offset a.offset_last (align new_size)
  rw [Nat.mod_eq_of_lt (by omega)] at hf
  simp only [arena_realloc, hA, hf]
  rw [if_neg hptr, if_pos htail, if_pos hfit]

/-- C4: reallocating the non-null pointer `base + offset_last` to a size with
`offset_last + align new_size ≤ size` returns the same pointer, sets `offset` to
`offset_last + align new_size`, leaves base, size and the provider fields unchanged and
leaves memory untouched, for larger and for smaller new sizes alike. The capacity is an
`unsigned long`; the result holds whatever the order of `offset_last` and `offset`. -/
theorem arena_realloc_fast_path (a : arena) (m : Mem) (ptr new_size : Nat)
    (hsize : a.size < ULONG_MOD)
    (hptr : ptr ≠ ARENA_NULL) (htail : ptr = a.base + a.offset_last)
    (hfit : a.offset_last + align new_size ≤ a.size) :
    (arena_realloc a m ptr new_size).1 = ptr ∧
    (arena_realloc a m ptr new_size).2.1.offset = a.offset_last + align new_size ∧
    (arena_realloc a m ptr new_size).2.1.base = a.base ∧
    (arena_realloc a m ptr new_size).2.1.size = a.size ∧
    (arena_realloc a m ptr new_size).2.1.allocator = a.allocator ∧
    (arena_realloc a m ptr new_size).2.1.deallocator = a.deallocator ∧
    (arena_realloc a m ptr new_size).2.2 = m := by
  rw [realloc_tail_in_place a m ptr new_size hsize hptr htail hfit]
  simp

/-- C4 on the test program's second call: the tail grows from 48 to 64 bytes in place. -/
theorem arena_realloc_fast_path_witness :
    (arena_realloc ⟨65536, 48, 0, 10485760, 1, 2⟩ mem0 65536 52).1 = 65536 ∧
    (arena_realloc ⟨65536, 48, 0, 10485760, 1, 2⟩ mem0 65536 52).2.1.offset = 64 ∧
    (arena_realloc ⟨65536, 48, 0, 10485760, 1, 2⟩ mem0 65536 52).2.1.base = 65536 ∧
    (arena_realloc ⟨65536, 48, 0, 10485760, 1, 2⟩ mem0 65536 52).2.1.size = 10485760 ∧
    (arena_realloc ⟨65536, 48, 0, 10485760, 1, 2⟩ mem0 65536 52).2.1.allocator = 1 ∧
    (arena_realloc ⟨65536, 48, 0, 10485760, 1, 2⟩ mem0 65536 52).2.1.deallocator = 2 ∧
    (arena_realloc ⟨65536, 48, 0, 10485760, 1, 2⟩ mem0 65536 52).2.2 = mem0 :=
  arena_realloc_fast_path ⟨65536, 48, 0, 10485760, 1, 2⟩ mem0 65536 52 (by decide)
    (by decide) (by decide) (by decide)

/-! ## C8 -/

theorem arena_malloc_ARENA_ALIGN (a : arena) (n : Nat) :
    arena_malloc a (ARENA_ALIGN n) = arena_malloc a n := by
  simp only [arena_malloc, ARENA_ALIGN_idem]

theorem realloc_null (a : arena) (m : Mem) (n : Nat) :
    arena_realloc a m ARENA_NULL n = ((arena_malloc a n).1, (arena_malloc a n).2, m) := by
  simp only [arena_realloc, arena_malloc_ARENA_ALIGN, if_true]

/-- C8: `arena_realloc` with a null pointer returns the pointer and leaves the arena that
`arena_malloc` with the same size would (aligning the size twice changes nothing), and
leaves memory untouched. -/
theorem arena_realloc_null_eq_malloc (a : arena) (m : Mem) (new_size : Nat) :
    arena_realloc a m ARENA_NULL new_size =
      ((arena_malloc a new_size).1, (arena_malloc a new_size).2, m) :=
  realloc_null a m new_size

/-! ## C9 -/

theorem arena_malloc_base (a : arena) (n : Nat) : (arena_malloc a n).2.base = a.base := by
  simp only [arena_malloc]; split <;> rfl

theorem arena_malloc_null (a : arena) (n : Nat) (hs : Settled a)
    (h : (arena_malloc a n).1 = ARENA_NULL) : (arena_malloc a n).2 = a := by
  simp only [arena_malloc] at h ⊢
  split at h
  · rw [if_pos (by assumption)]
  · rename_i hc
    rw [if_neg hc]
    simp only [ARENA_NULL] at h hs ⊢
    have hb : a.base = 0 := by omega
    have ho : a.offset = 0 := by omega
    rcases hs with hs | ⟨_, hl⟩
    · exact absurd hb hs
    · cases a
      simp only [ul_add, ULONG_MOD_val] at *
      subst hb ho hl
      simp

theorem arena_malloc_settled (a : arena) (n : Nat) (hs : Settled a) :
    Settled (arena_malloc a n).2 := by
  by_cases hb : a.base = ARENA_NULL
  · rcases hs with hs | ⟨ho, hl⟩
    · exact absurd hb hs
    · right
      simp only [arena_malloc]
      split
      · exact ⟨ho, hl⟩
      · simp [hb, ho, ARENA_NULL, ul_add]
  · left
    rw [arena_malloc_base]; exact hb

theorem arena_realloc_null (a : arena) (m : Mem) (ptr n : Nat) (hs : Settled a)
    (h : (arena_realloc a m ptr n).1 = ARENA_NULL) : (arena_realloc a m ptr n).2 = (a, m) := by
  simp only [arena_realloc] at h ⊢
  split at h
  · rw [if_pos (by assumption)]
    simp only [arena_malloc_null a _ hs h]
  · rename_i hp
    rw [if_neg hp]
    by_cases ht : ptr = a.base + a.offset_last
    · rw [if_pos ht] at h ⊢
      split at h
      · exact absurd h hp
      · rename_i hc
        rw [if_neg hc]
        split at h
        · rename_i hnn; exact absurd h hnn
        · rename_i hnn
          rw [if_neg hnn]
          simp only [arena_malloc_null a _ hs h]
    · rw [if_neg ht] at h ⊢
      split at h
      · rename_i hnn; exact absurd h hnn
      · rename_i hnn
        rw [if_neg hnn]
        simp only [arena_malloc_null a _ hs h]

theorem arena_realloc_settled (a : arena) (m : Mem) (ptr n : Nat) (hs : Settled a) :
    Settled (arena_realloc a m ptr n).2.1 := by
  have hm := arena_malloc_settled a (ARENA_ALIGN n) hs
  simp only [arena_realloc]
  split
  · exact hm
  · rename_i hp
    have hslow : Settled
        (if (arena_malloc a (ARENA_ALIGN n)).1 ≠ ARENA_NULL then
          ((arena_malloc a (ARENA_ALIGN n)).1, (arena_malloc a (ARENA_ALIGN n)).2,
            arena_memcpy m (arena_malloc a (ARENA_ALIGN n)).1 ptr (ARENA_ALIGN n))
        else ((arena_malloc a (ARENA_ALIGN n)).1, (arena_malloc a (ARENA_ALIGN n)).2, m)).2.1 := by
      split <;> exact hm
    split
    · rename_i ht
      split
      · left
        show a.base ≠ ARENA_NULL
        rcases hs with hs | ⟨_, hl⟩
        · exact hs
        · intro hb
          apply hp
          rw [ht, hb, hl]
          rfl
      · exact hslow
    · exact hslow

theorem arena_init_settled (pv : Provider) (a : arena) (size : Nat) (hs : Settled a) :
    Settled (arena_init pv a size).2 := by
  unfold Settled at hs ⊢
  by_cases hb : a.base = ARENA_NULL
  · rcases hs with hs | ⟨ho, hl⟩
    · exact absurd hb hs
    · right
      by_cases h1 : a.allocator = 0 <;> by_cases h2 : a.deallocator = 0 <;>
        simp only [arena_init, hb, h1, h2, if_true, if_false] <;> split <;> simp [ho, hl]
  · simp only [arena_init, hb, if_false]
    exact hs

theorem arena_init_ok_settled (pv : Provider) (a : arena) (size : Nat)
    (h : (arena_init pv a size).1 = 1) : Settled (arena_init pv a size).2 := by
  unfold Settled
  by_cases hb : a.base = ARENA_NULL
  · right
    by_cases h1 : a.allocator = 0 <;> by_cases h2 : a.deallocator = 0 <;>
      simp only [arena_init, hb, h1, h2, if_true, if_false] at h ⊢ <;> split at h <;>
      simp_all
  · left
    simp only [arena_init, hb, if_false]
    exact hb

theorem Reachable.settled {a : arena} (h : Reachable a) : Settled a := by
  induction h with
  | init pv a0 size _ _ hok => exact arena_init_ok_settled pv a0 size hok
  | reinit pv a size _ _ ih => exact arena_init_settled pv a size ih
  | malloc a n _ ih => exact arena_malloc_settled a n ih
  | realloc a m ptr n _ ih => exact arena_realloc_settled a m ptr n ih
  | reset a _ _ => right; exact ⟨rfl, rfl⟩
  | free a _ ih =>
    simp only [arena_free]
    split
    · right; exact ⟨rfl, rfl⟩
    · exact ih

/-- C9: in every state reachable from a successful `arena_init`, a call of `arena_malloc`
or `arena_realloc` that returns null leaves every field of the arena and every byte of
memory exactly as before the call. -/
theorem alloc_failure_atomic (a : arena) (h : Reachable a) :
    (∀ n : Nat, (arena_malloc a n).1 = ARENA_NULL → (arena_malloc a n).2 = a) ∧
    (∀ (m : Mem) (ptr n : Nat), (arena_realloc a m ptr n).1 = ARENA_NULL →
      (arena_realloc a m ptr n).2 = (a, m)) :=
  ⟨fun n hn => arena_malloc_null a n h.settled hn,
   fun m ptr n hn => arena_realloc_null a m ptr n h.settled hn⟩

/-- C9 on the freshly initialised 10 MiB arena of the test program. -/
theorem alloc_failure_atomic_witness :
    Reachable arena1 ∧
    ((∀ n : Nat, (arena_malloc arena1 n).1 = ARENA_NULL → (arena_malloc arena1 n).2 = arena1) ∧
     (∀ (m : Mem) (ptr n : Nat), (arena_realloc arena1 m ptr n).1 = ARENA_NULL →
        (arena_realloc arena1 m ptr n).2 = (arena1, m))) :=
  ⟨Reachable.init pv0 arena0 10485760 (by decide) (by decide) (by decide),
   alloc_failure_atomic arena1
     (Reachable.init pv0 arena0 10485760 (by decide) (by decide) (by decide))⟩

/-! ## C5 -/

theorem arena_malloc_size (a : arena) (n : Nat) : (arena_malloc a n).2.size = a.size := by
  simp only [arena_malloc]; split <;> rfl

theorem arena_malloc_ptr (a : arena) (n : Nat) (h : (arena_malloc a n).1 ≠ ARENA_NULL) :
    (arena_malloc a n).1 = (arena_malloc a n).2.base + (arena_malloc a n).2.offset_last := by
  simp only [arena_malloc] at h ⊢
  split
  · rename_i hc; rw [if_pos hc] at h; exact absurd rfl h
  · rfl

theorem arena_realloc_size (a : arena) (m : Mem) (ptr n : Nat) :
    (arena_realloc a m ptr n).2.1.size = a.size := by
  have hm := arena_malloc_size a (ARENA_ALIGN n)
  simp only [arena_realloc]
  split_ifs <;> first | exact hm | rfl

theorem arena_init_size_lt (pv : Provider) (a : arena) (size : Nat)
    (ha : a.size < ULONG_MOD) (hs : size < ULONG_MOD) :
    (arena_init pv a size).2.size < ULONG_MOD := by
  by_cases hb : a.base = ARENA_NULL
  · by_cases h1 : a.allocator = 0 <;> by_cases h2 : a.deallocator = 0 <;>
      simp only [arena_init, hb, h1, h2, if_true, if_false] <;> split <;> simp [ha, hs]
  · simp only [arena_init, hb, if_false]
    exact ha

theorem Reachable.size_lt {a : arena} (h : Reachable a) : a.size < ULONG_MOD := by
  induction h with
  | init pv a0 size h0 hs _ => exact arena_init_size_lt pv a0 size h0.2.2 hs
  | reinit pv a size _ hs ih => exact arena_init_size_lt pv a size ih hs
  | malloc a n _ ih => rw [arena_malloc_size]; exact ih
  | realloc a m ptr n _ ih => rw [arena_realloc_size]; exact ih
  | reset a _ ih => exact ih
  | free a _ ih =>
    simp only [arena_free]
    split
    · simp [ULONG_MOD_val]
    · exact ih

/-- After a successful call that allocated a block (not the fast path), the returned pointer
is the one at `offset_last`. -/
theorem Call.exec_ptr (a : arena) (m : Mem) (c : Call) (hnot : ¬ c.inPlace a)
    (hp : (c.exec a m).1 ≠ ARENA_NULL) :
    (c.exec a m).1 = (c.exec a m).2.1.base + (c.exec a m).2.1.offset_last := by
  cases c with
  | malloc n => exact arena_malloc_ptr a n hp
  | realloc ptr n =>
    have hm := arena_malloc_ptr a (ARENA_ALIGN n)
    simp only [Call.inPlace] at hnot
    simp only [Call.exec, arena_realloc] at hp ⊢
    split_ifs at hp ⊢ with h1 h2 h3 h4 h5
    · exact hm hp
    · exact absurd ⟨h1, h2, h3⟩ hnot
    · exact hm h4
    · exact absurd hp h4
    · exact hm h5
    · exact absurd hp h5

/-- The returned pointer is at `offset_last` after a call that allocated a block and after
an in-place resize of a block of size zero. -/
theorem Call.exec_tail (a : arena) (m : Mem) (c : Call)
    (hcase : ¬ c.inPlace a ∨ a.offset = a.offset_last)
    (hp : (c.exec a m).1 ≠ ARENA_NULL) :
    (c.exec a m).1 = (c.exec a m).2.1.base + (c.exec a m).2.1.offset_last := by
  by_cases hin : c.inPlace a
  · rcases hcase with h | h
    · exact absurd hin h
    · cases c with
      | malloc n => exact absurd hin (by simp [Call.inPlace])
      | realloc ptr n =>
        obtain ⟨h1, h2, h3⟩ := hin
        simp only [Call.exec, arena_realloc, if_neg h1, if_pos h2, if_pos h3]
        rw [h]
        exact h2
  · exact Call.exec_ptr a m c hin hp

theorem Call.exec_size (a : arena) (m : Mem) (c : Call) : (c.exec a m).2.1.size = a.size := by
  cases c with
  | malloc n => exact arena_malloc_size a n
  | realloc ptr n => exact arena_realloc_size a m ptr n

/-- C5 (counterexample): on the test program's arena, `p = arena_malloc(40)` followed by the
in-place `arena_realloc(p, 52)` (which returns `p`) leaves a state in which
`(p - base) + align 52 ≤ size`, yet a further `arena_realloc(p, 52)` returns another address
and overwrites memory. -/
theorem realloc_after_in_place_realloc_moves :
    arena_malloc arena1 40 = (65536, ⟨65536, 48, 0, 10485760, 1, 2⟩) ∧
    Call.inPlace ⟨65536, 48, 0, 10485760, 1, 2⟩ (.realloc 65536 52) ∧
    (arena_realloc ⟨65536, 48, 0, 10485760, 1, 2⟩ mem0 65536 52).1 = 65536 ∧
    (arena_realloc ⟨65536, 48, 0, 10485760, 1, 2⟩ mem0 65536 52).2.1
      = ⟨65536, 64, 48, 10485760, 1, 2⟩ ∧
    (65536 - 65536) + align 52 ≤ 10485760 ∧
    (arena_realloc ⟨65536, 64, 48, 10485760, 1, 2⟩ mem0 65536 52).1 = 65600 ∧
    (arena_realloc ⟨65536, 64, 48, 10485760, 1, 2⟩ mem0 65536 52).2.2 65600 ≠ mem0 65600 := by
  decide

/-- C5 (amended): in every state reachable from a successful `arena_init`, if `p` is the
non-null pointer returned by a call that allocated a block (`arena_malloc`, or an
`arena_realloc` that did not resize in place) or that resized in place a block of size zero
(`offset = offset_last` before the call), and `(p - base) + align new_size ≤ size`, then
`arena_realloc` on `p` returns `p` and leaves memory untouched. -/
theorem realloc_last_allocation_in_place (a : arena) (m : Mem) (c : Call)
    (hr : Reachable a) (hcase : ¬ c.inPlace a ∨ a.offset = a.offset_last)
    (hp : (c.exec a m).1 ≠ ARENA_NULL)
    (m' : Mem) (new_size : Nat)
    (hfit : ((c.exec a m).1 - (c.exec a m).2.1.base) + align new_size ≤ (c.exec a m).2.1.size) :
    (arena_realloc (c.exec a m).2.1 m' (c.exec a m).1 new_size).1 = (c.exec a m).1 ∧
    (arena_realloc (c.exec a m).2.1 m' (c.exec a m).1 new_size).2.2 = m' := by
  have hptr := Call.exec_tail a m c hcase hp
  have hsz : (c.exec a m).2.1.size < ULONG_MOD := by
    rw [Call.exec_size]; exact hr.size_lt
  have hfit' : (c.exec a m).2.1.offset_last + align new_size ≤ (c.exec a m).2.1.size := by
    have e : (c.exec a m).1 - (c.exec a m).2.1.base = (c.exec a m).2.1.offset_last := by
      omega
    rw [e] at hfit; exact hfit
  rw [realloc_tail_in_place _ m' _ new_size hsz hp hptr hfit']
  exact ⟨rfl, rfl⟩

/-- C5 (amended) on the test program's arena: the block from `arena_malloc(40)` grows in
place, and so does a block from `arena_malloc(0)` after it was resized in place to 16
bytes. -/
theorem realloc_last_allocation_in_place_witness :
    Reachable arena1 ∧ ¬ Call.inPlace arena1 (.malloc 40) ∧
    ((arena_realloc ((Call.malloc 40).exec arena1 mem0).2.1 mem0
        ((Call.malloc 40).exec arena1 mem0).1 52).1 = ((Call.malloc 40).exec arena1 mem0).1 ∧
     (arena_realloc ((Call.malloc 40).exec arena1 mem0).2.1 mem0
        ((Call.malloc 40).exec arena1 mem0).1 52).2.2 = mem0) ∧
    Reachable (arena_malloc arena1 0).2 ∧
    (arena_malloc arena1 0).2.offset = (arena_malloc arena1 0).2.offset_last ∧
    ((arena_realloc ((Call.realloc 65536 16).exec (arena_malloc arena1 0).2 mem0).2.1 mem0
        ((Call.realloc 65536 16).exec (arena_malloc arena1 0).2 mem0).1 32).1
        = ((Call.realloc 65536 16).exec (arena_malloc arena1 0).2 mem0).1 ∧
     (arena_realloc ((Call.realloc 65536 16).exec (arena_malloc arena1 0).2 mem0).2.1 mem0
        ((Call.realloc 65536 16).exec (arena_malloc arena1 0).2 mem0).1 32).2.2 = mem0) :=
  ⟨Reachable.init pv0 arena0 10485760 (by decide) (by decide) (by decide), by decide,
   realloc_last_allocation_in_place arena1 mem0 (.malloc 40)
     (Reachable.init pv0 arena0 10485760 (by decide) (by decide) (by decide))
     (Or.inl (by decide)) (by decide) mem0 52 (by decide),
   Reachable.malloc _ 0 (Reachable.init pv0 arena0 10485760 (by decide) (by decide) (by decide)),
   by decide,
   realloc_last_allocation_in_place (arena_malloc arena1 0).2 mem0 (.realloc 65536 16)
     (Reachable.malloc _ 0
       (Reachable.init pv0 arena0 10485760 (by decide) (by decide) (by decide)))
     (Or.inr (by decide)) (by decide) mem0 32 (by decide)⟩

/-! ## C6 -/

/-- The word loop after `k` passes: bytes outside `[d, d + 8 k)` are untouched, and byte
`d + i` holds the original source byte `s + i` as long as the source byte was not itself
overwritten earlier in the loop. -/
theorem word_loop_spec (m : Mem) (d s k : Nat) :
    (∀ p, p < d ∨ d + k * 8 ≤ p → word_loop m d s k p = m p) ∧
    (∀ i, i < k * 8 → (s < d → i < d - s) → word_loop m d s k (d + i) = m (s + i)) := by
  induction k with
  | zero =>
    refine ⟨fun p _ => rfl, fun i hi => ?_⟩
    omega
  | succ k ih =>
    obtain ⟨ihf, ihc⟩ := ih
    refine ⟨fun p hp => ?_, fun i hi hov => ?_⟩
    · simp only [word_loop, copy_word, SIZEOF_ULONG]
      rw [if_neg (by omega)]
      exact ihf p (by omega)
    · simp only [word_loop, copy_word, SIZEOF_ULONG]
      by_cases hlt : i < k * 8
      · rw [if_neg (by omega)]
        exact ihc i hlt hov
      · rw [if_pos (by omega)]
        have e : s + k * 8 + (d + i - (d + k * 8)) = s + i := by omega
        rw [e]
        apply ihf
        by_cases hsd : s < d
        · have := hov hsd
          left; omega
        · right; omega

/-- The byte loop after `k` passes, starting behind `c` copied words. -/
theorem byte_loop_spec (m : Mem) (d s c k : Nat) :
    (∀ p, p < d + c * 8 ∨ d + c * 8 + k ≤ p → byte_loop m d s c k p = m p) ∧
    (∀ i, i < k → (s < d → c * 8 + i < d - s) →
      byte_loop m d s c k (d + (c * 8 + i)) = m (s + (c * 8 + i))) := by
  induction k with
  | zero =>
    refine ⟨fun p _ => rfl, fun i hi => ?_⟩
    omega
  | succ k ih =>
    obtain ⟨ihf, ihc⟩ := ih
    refine ⟨fun p hp => ?_, fun i hi hov => ?_⟩
    · simp only [byte_loop, copy_byte, SIZEOF_ULONG]
      rw [if_neg (by omega)]
      exact ihf p (by omega)
    · simp only [byte_loop, copy_byte, SIZEOF_ULONG]
      by_cases hlt : i < k
      · rw [if_neg (by omega)]
        exact ihc i hlt hov
      · have e : i = k := by omega
        subst e
        rw [if_pos rfl]
        apply ihf
        by_cases hsd : s < d
        · have := hov hsd
          left; omega
        · right; omega

/-- Frame of `arena_memcpy`: only the `n` bytes from `dest` on can change. -/
theorem arena_memcpy_frame (m : Mem) (dest src n p : Nat) (hp : p < dest ∨ dest + n ≤ p) :
    arena_memcpy m dest src n p = m p := by
  simp only [arena_memcpy, SIZEOF_ULONG]
  have hn : n / 8 * 8 + n % 8 = n := by omega
  split
  · rfl
  · split
    · rw [(byte_loop_spec _ dest src (n / 8) (n % 8)).1 p (by omega)]
      exact (word_loop_spec m dest src (n / 8)).1 p (by omega)
    · exact (word_loop_spec m dest src (n / 8)).1 p (by omega)

/-- Content of `arena_memcpy`: byte `i` of the destination receives byte `i` of the source
as it was before the call, for every `i < n` when the source lies at or above the destination
and for `i < dest - src` when it lies below. -/
theorem arena_memcpy_read (m : Mem) (dest src n i : Nat) (hi : i < n)
    (hov : src < dest → i < dest - src) :
    arena_memcpy m dest src n (dest + i) = m (src + i) := by
  simp only [arena_memcpy, SIZEOF_ULONG]
  split
  · rename_i h; rw [h]
  · have hw := word_loop_spec m dest src (n / 8)
    by_cases hlt : i < n / 8 * 8
    · have hwi := hw.2 i hlt hov
      split
      · rw [(byte_loop_spec _ dest src (n / 8) (n % 8)).1 (dest + i) (by omega)]
        exact hwi
      · exact hwi
    · have hr : 0 < n % 8 := by omega
      rw [if_pos hr]
      have e : i = n / 8 * 8 + (i - n / 8 * 8) := by omega
      rw [e]
      rw [(byte_loop_spec _ dest src (n / 8) (n % 8)).2 (i - n / 8 * 8) (by omega)
        (by intro h; have := hov h; omega)]
      apply hw.1
      by_cases hsd : src < dest
      · have := hov hsd
        left; omega
      · right; omega

/-- A successful `arena_realloc` that does not stay in place returns `base + offset` and
copies `ARENA_ALIGN new_size` bytes to it. -/
theorem arena_realloc_slow (a : arena) (m : Mem) (ptr n : Nat)
    (hptr : ptr ≠ ARENA_NULL) (hnt : ptr ≠ a.base + a.offset_last)
    (hok : (arena_realloc a m ptr n).1 ≠ ARENA_NULL) :
    (arena_realloc a m ptr n).1 = a.base + a.offset ∧
    (arena_realloc a m ptr n).2.2 = arena_memcpy m (a.base + a.offset) ptr (ARENA_ALIGN n) := by
  have hm : (arena_malloc a (ARENA_ALIGN n)).1 ≠ ARENA_NULL →
      (arena_malloc a (ARENA_ALIGN n)).1 = a.base + a.offset := by
    intro h
    simp only [arena_malloc] at h ⊢
    split
    · rename_i hc; rw [if_pos hc] at h; exact absurd rfl h
    · rfl
  simp only [arena_realloc, if_neg hptr, if_neg hnt] at hok ⊢
  split_ifs at hok ⊢ with h1
  · exact ⟨hm h1, by rw [hm h1]⟩
  · exact absurd hok h1

/-- C6 (counterexample): in the test program's state before its third `arena_realloc`, the
block at `base` holds 64 bytes (aligned) and is not the tail. Reallocating it to 80 bytes
succeeds at `base + 12064` and byte 64 of the new region, beyond `min(64, 80)`, is written:
it receives the byte found 64 bytes behind the old pointer. -/
theorem realloc_copies_beyond_old_size :
    (Client.run ⟨arena1, mem0, []⟩ [.malloc 40, .realloc 0 52, .malloc 12000]).a
      = ⟨65536, 12064, 64, 10485760, 1, 2⟩ ∧
    (65536 : Nat) ≠ 65536 + 64 ∧
    (arena_realloc ⟨65536, 12064, 64, 10485760, 1, 2⟩ mem0 65536 80).1 = 77600 ∧
    min 64 (align 80) = 64 ∧
    (arena_realloc ⟨65536, 12064, 64, 10485760, 1, 2⟩ mem0 65536 80).2.2 (77600 + 64)
      = mem0 (65536 + 64) ∧
    (arena_realloc ⟨65536, 12064, 64, 10485760, 1, 2⟩ mem0 65536 80).2.2 (77600 + 64)
      ≠ mem0 (77600 + 64) := by
  decide

/-- C6 (amended): whenever `arena_realloc` succeeds on a non-null pointer that is not the
current tail, the result is `base + offset` and exactly the `ARENA_ALIGN new_size` bytes of
the new region are copied, whatever the size of the old region: every byte outside the new
region keeps its value, and when the source range does not overlap the new region each of
its `ARENA_ALIGN new_size` bytes equals the source byte at the same index. -/
theorem arena_realloc_copy_length (a : arena) (m : Mem) (ptr new_size : Nat)
    (hptr : ptr ≠ ARENA_NULL) (hnt : ptr ≠ a.base + a.offset_last)
    (hok : (arena_realloc a m ptr new_size).1 ≠ ARENA_NULL) :
    (arena_realloc a m ptr new_size).1 = a.base + a.offset ∧
    (∀ p, p < a.base + a.offset ∨ a.base + a.offset + ARENA_ALIGN new_size ≤ p →
      (arena_realloc a m ptr new_size).2.2 p = m p) ∧
    (ptr + ARENA_ALIGN new_size ≤ a.base + a.offset ∨
        a.base + a.offset + ARENA_ALIGN new_size ≤ ptr →
      ∀ i, i < ARENA_ALIGN new_size →
        (arena_realloc a m ptr new_size).2.2 (a.base + a.offset + i) = m (ptr + i)) := by
  obtain ⟨hr, hmem⟩ := arena_realloc_slow a m ptr new_size hptr hnt hok
  refine ⟨hr, fun p hp => ?_, fun hdis i hi => ?_⟩
  · rw [hmem]; exact arena_memcpy_frame m _ ptr _ p hp
  · rw [hmem]
    apply arena_memcpy_read m _ ptr _ i hi
    intro hlt
    omega

/-- C6 (amended) on the test program's third `arena_realloc`: 80 bytes are copied from
`base` to `base + 12064`. -/
theorem arena_realloc_copy_length_witness :
    (65536 : Nat) ≠ ARENA_NULL ∧
    (arena_realloc ⟨65536, 12064, 64, 10485760, 1, 2⟩ mem0 65536 80).1 = 65536 + 12064 ∧
    (∀ p, p < 65536 + 12064 ∨ 65536 + 12064 + ARENA_ALIGN 80 ≤ p →
      (arena_realloc ⟨65536, 12064, 64, 10485760, 1, 2⟩ mem0 65536 80).2.2 p = mem0 p) ∧
    (65536 + ARENA_ALIGN 80 ≤ 65536 + 12064 ∨ 65536 + 12064 + ARENA_ALIGN 80 ≤ 65536 →
      ∀ i, i < ARENA_ALIGN 80 →
        (arena_realloc ⟨65536, 12064, 64, 10485760, 1, 2⟩ mem0 65536 80).2.2
          (65536 + 12064 + i) = mem0 (65536 + i)) :=
  ⟨by decide,
   arena_realloc_copy_length ⟨65536, 12064, 64, 10485760, 1, 2⟩ mem0 65536 80 (by decide)
     (by decide) (by decide)⟩

/-! ## Call sequences with sizes of non-zero aligned value below `2 ^ 32` -/

theorem getElem?_snoc {α : Type} (l : List α) (x e : α) (i : Nat) :
    (l ++ [x])[i]? = some e ↔ l[i]? = some e ∨ (i = l.length ∧ x = e) := by
  rw [List.getElem?_append]
  split
  · rename_i h
    constructor
    · intro h'; exact Or.inl h'
    · rintro (h' | ⟨h', _⟩)
      · exact h'
      · omega
  · rename_i h
    have hn : l[i]? = none := List.getElem?_eq_none (by omega)
    rw [hn]
    by_cases hi : i = l.length
    · subst hi; simp
    · have hne : i - l.length ≠ 0 := by omega
      obtain ⟨j, hj⟩ := Nat.exists_eq_succ_of_ne_zero hne
      rw [hj]; simp; omega

theorem getElem?_retire (log : List Entry) (k i : Nat) (e : Entry)
    (h : (retire log k)[i]? = some e) :
    (i ≠ k ∧ log[i]? = some e) ∨
      (i = k ∧ ∃ e0, log[k]? = some e0 ∧ e = { e0 with live := false }) := by
  simp only [retire, List.getElem?_set] at h
  split at h
  · rename_i hki
    subst hki
    split at h
    · rename_i hlt
      right
      refine ⟨rfl, log[k], ?_, ?_⟩
      · exact List.getElem?_eq_getElem hlt
      · have hd : log.getD k ⟨ARENA_NULL, 0, false⟩ = log[k] := by
          rw [List.getD_eq_getElem?_getD, List.getElem?_eq_getElem hlt]; rfl
        rw [hd] at h
        exact (Option.some.inj h).symm
    · exact absurd h (by simp)
  · rename_i hki
    left
    exact ⟨fun h' => hki h'.symm, h⟩

theorem arena_malloc_sized (a : arena) (n : Nat) (hb : a.base ≠ ARENA_NULL)
    (hcap : a.size + UINT_MOD ≤ ULONG_MOD) (hoff : a.offset ≤ a.size)
    (hn : align n < UINT_MOD) :
    arena_malloc a n =
      if a.offset + align n ≤ a.size then
        (a.base + a.offset, { a with offset_last := a.offset, offset := a.offset + align n })
      else (ARENA_NULL, a) := by
  rw [ULONG_MOD_val, UINT_MOD_val] at hcap
  rw [UINT_MOD_val] at hn
  have hn' : n + 15 < 18446744073709551616 := by
    rw [align_eq] at hn; omega
  have hA : ARENA_ALIGN n = align n := ARENA_ALIGN_of_lt n hn'
  have hp : a.base + a.offset ≠ 0 := by
    simp only [ARENA_NULL] at hb; omega
  simp only [arena_malloc, hA, ul_add, ULONG_MOD_val, UINT_MOD_val, ARENA_NULL]
  have e1 : align n % 4294967296 = align n := Nat.mod_eq_of_lt hn
  have e2 : (a.offset + align n) % 18446744073709551616 = a.offset + align n :=
    Nat.mod_eq_of_lt (by omega)
  simp only [e1, e2, hp, ne_eq, not_false_eq_true, if_true]
  by_cases hfit : a.offset + align n ≤ a.size
  · rw [if_neg (by omega), if_pos hfit]
  · rw [if_pos (by omega), if_neg hfit]

theorem arena_realloc_sized (a : arena) (m : Mem) (ptr n : Nat) (hb : a.base ≠ ARENA_NULL)
    (hcap : a.size + UINT_MOD ≤ ULONG_MOD) (hoff : a.offset ≤ a.size)
    (hn : align n < UINT_MOD) (hp : ptr ≠ ARENA_NULL)
    (hol : ptr = a.base + a.offset_last → a.offset_last ≤ a.size) :
    arena_realloc a m ptr n =
      if ptr = a.base + a.offset_last ∧ a.offset_last + align n ≤ a.size then
        (ptr, { a with offset_last := a.offset, offset := a.offset_last + align n }, m)
      else if a.offset + align n ≤ a.size then
        (a.base + a.offset, { a with offset_last := a.offset, offset := a.offset + align n },
          arena_memcpy m (a.base + a.offset) ptr (align n))
      else (ARENA_NULL, a, m) := by
  have hm := arena_malloc_sized a n hb hcap hoff hn
  rw [← arena_malloc_ARENA_ALIGN] at hm
  rw [ULONG_MOD_val, UINT_MOD_val] at hcap
  rw [UINT_MOD_val] at hn
  have hn' : n + 15 < 18446744073709551616 := by
    rw [align_eq] at hn; omega
  have hA : ARENA_ALIGN n = align n := ARENA_ALIGN_of_lt n hn'
  have hp0 : a.base + a.offset ≠ ARENA_NULL := by
    simp only [ARENA_NULL] at hb ⊢; omega
  have hslow : (if (arena_malloc a (ARENA_ALIGN n)).1 ≠ ARENA_NULL then
        ((arena_malloc a (ARENA_ALIGN n)).1, (arena_malloc a (ARENA_ALIGN n)).2,
          arena_memcpy m (arena_malloc a (ARENA_ALIGN n)).1 ptr (ARENA_ALIGN n))
      else ((arena_malloc a (ARENA_ALIGN n)).1, (arena_malloc a (ARENA_ALIGN n)).2, m)) =
      if a.offset + align n ≤ a.size then
        (a.base + a.offset, { a with offset_last := a.offset, offset := a.offset + align n },
          arena_memcpy m (a.base + a.offset) ptr (align n))
      else (ARENA_NULL, a, m) := by
    rw [hm, hA]
    by_cases hfit2 : a.offset + align n ≤ a.size
    · simp only [if_pos hfit2, hp0, ne_eq, not_false_eq_true, if_true]
    · simp only [if_neg hfit2, ne_eq, not_true_eq_false, if_false]
  simp only [arena_realloc, if_neg hp]
  rw [hslow]
  by_cases ht : ptr = a.base + a.offset_last
  · have hl := hol ht
    have hf := fast_offset a.offset a.offset_last (align n)
    rw [Nat.mod_eq_of_lt (by omega)] at hf
    rw [if_pos ht, hA, hf]
    by_cases hfit : a.offset_last + align n ≤ a.size
    · rw [if_pos hfit, if_pos ⟨ht, hfit⟩]
    · have hc : ¬ (ptr = a.base + a.offset_last ∧ a.offset_last + align n ≤ a.size) :=
        fun h => hfit h.2
      rw [if_neg hfit, if_neg hc]
  · have hc : ¬ (ptr = a.base + a.offset_last ∧ a.offset_last + align n ≤ a.size) :=
      fun h => ht h.1
    rw [if_neg ht, if_neg hc]

theorem ptrOf_ne_null (c : Client) (k : Nat) (h : c.ptrOf k ≠ ARENA_NULL) :
    ∃ e0, c.log[k]? = some e0 ∧ e0.ptr = c.ptrOf k := by
  by_cases hk : k < c.log.length
  · refine ⟨c.log[k], List.getElem?_eq_getElem hk, ?_⟩
    simp only [Client.ptrOf, List.getD_eq_getElem?_getD, List.getElem?_eq_getElem hk]
    rfl
  · exfalso
    apply h
    simp only [Client.ptrOf, List.getD_eq_getElem?_getD,
      List.getElem?_eq_none (Nat.le_of_not_lt hk)]
    rfl

theorem step_outcome (c : Client) (r : Request) (hinv : Inv c) (hr : r.sized) :
    Outcome c (c.step r) (align r.bytes) := by
  obtain ⟨hb, hcap, hoff, hbelow, -, -, -⟩ := hinv
  have hp0 : c.a.base + c.a.offset ≠ ARENA_NULL := by
    simp only [ARENA_NULL] at hb ⊢; omega
  cases r with
  | malloc n =>
    have hm := arena_malloc_sized c.a n hb hcap hoff hr.2
    by_cases hfit : c.a.offset + align n ≤ c.a.size
    · rw [if_pos hfit] at hm
      refine Outcome.fresh hfit ?_ ?_
      · simp only [Client.step, hm, Request.bytes]
      · simp only [Client.step, hm, Request.bytes, hp0, ne_eq, not_false_eq_true, decide_True]
    · rw [if_neg hfit] at hm
      refine Outcome.fail ?_ ?_
      · simp only [Client.step, hm, Request.bytes]
      · simp only [Client.step, hm, Request.bytes, ne_eq, not_true_eq_false, decide_False]
  | realloc k n =>
    by_cases hp : c.ptrOf k = ARENA_NULL
    · have hm := arena_malloc_sized c.a n hb hcap hoff hr.2
      have hrn := realloc_null c.a c.m n
      by_cases hfit : c.a.offset + align n ≤ c.a.size
      · rw [if_pos hfit] at hm
        rw [hm] at hrn
        refine Outcome.fresh hfit ?_ ?_
        · simp only [Client.step, hp, hrn, Request.bytes]
        · have hne : ¬ (c.a.base + c.a.offset = ARENA_NULL) := hp0
          simp only [Client.step, hp, hrn, Request.bytes, ne_eq, hne, not_false_eq_true,
            decide_True, and_false, if_false]
      · rw [if_neg hfit] at hm
        rw [hm] at hrn
        refine Outcome.fail ?_ ?_
        · simp only [Client.step, hp, hrn, Request.bytes]
        · simp only [Client.step, hp, hrn, Request.bytes, ne_eq, not_true_eq_false,
            decide_False, false_and, if_false]
    · obtain ⟨e0, he0, hptr⟩ := ptrOf_ne_null c k hp
      have hlt := hbelow k e0 he0 (by rw [hptr]; exact hp)
      rw [hptr] at hlt
      have hol : c.ptrOf k = c.a.base + c.a.offset_last → c.a.offset_last ≤ c.a.size := by
        intro h; omega
      have hre := arena_realloc_sized c.a c.m (c.ptrOf k) n hb hcap hoff hr.2 hp hol
      by_cases hfast : c.ptrOf k = c.a.base + c.a.offset_last ∧
          c.a.offset_last + align n ≤ c.a.size
      · rw [if_pos hfast] at hre
        refine Outcome.grown k e0 he0 (by rw [hptr]; exact hfast.1) (by rw [hptr]; exact hp)
          hfast.2 ?_ ?_
        · simp only [Client.step, hre, Request.bytes]
        · simp only [Client.step, hre, Request.bytes, ne_eq, hp, not_false_eq_true, and_self,
            if_true, decide_True, hptr]
      · rw [if_neg hfast] at hre
        by_cases hfit : c.a.offset + align n ≤ c.a.size
        · rw [if_pos hfit] at hre
          have hne : ¬ (c.a.base + c.a.offset = c.ptrOf k) := by omega
          have hne0 : ¬ (c.a.base + c.a.offset = ARENA_NULL) := hp0
          refine Outcome.fresh hfit ?_ ?_
          · simp only [Client.step, hre, Request.bytes]
          · simp only [Client.step, hre, Request.bytes, ne_eq, hne, hne0, not_false_eq_true,
              decide_True, and_false, if_false]
        · rw [if_neg hfit] at hre
          refine Outcome.fail ?_ ?_
          · simp only [Client.step, hre, Request.bytes]
          · simp only [Client.step, hre, Request.bytes, ne_eq, not_true_eq_false,
              decide_False, false_and, if_false]


theorem Inv.of_outcome (c c' : Client) (L : Nat) (hinv : Inv c) (hL : 0 < L)
    (h : Outcome c c' L) : Inv c' := by
  obtain ⟨hb, hcap, hoff, hbelow, hends, hsep, htail⟩ := hinv
  have hb' : c.a.base ≠ 0 := hb
  cases h with
  | fail ha hlog =>
    refine ⟨by rw [ha]; exact hb, by rw [ha]; exact hcap, by rw [ha]; exact hoff, ?_, ?_, ?_, ?_⟩
    · intro i e hi hne
      rw [hlog, getElem?_snoc] at hi
      rw [ha]
      rcases hi with hi | ⟨_, rfl⟩
      · exact hbelow i e hi hne
      · exact absurd rfl hne
    · intro i e hi hl
      rw [hlog, getElem?_snoc] at hi
      rw [ha]
      rcases hi with hi | ⟨_, rfl⟩
      · exact hends i e hi hl
      · simp at hl
    · intro i j e f hij hi hj hle hlf
      rw [hlog, getElem?_snoc] at hi hj
      rcases hi with hi | ⟨_, rfl⟩
      · rcases hj with hj | ⟨_, rfl⟩
        · exact hsep i j e f hij hi hj hle hlf
        · simp at hlf
      · simp at hle
    · intro k e hk hpt j f hjk hj hlf
      rw [hlog, getElem?_snoc] at hk hj
      rw [ha] at hpt
      rcases hk with hk | ⟨_, rfl⟩
      · rcases hj with hj | ⟨_, rfl⟩
        · exact htail k e hk hpt j f hjk hj hlf
        · simp at hlf
      · simp only [ARENA_NULL] at hpt; omega
  | fresh hfit ha hlog =>
    refine ⟨by rw [ha]; exact hb, by rw [ha]; exact hcap, by rw [ha]; exact hfit, ?_, ?_, ?_, ?_⟩
    · intro i e hi hne
      rw [hlog, getElem?_snoc] at hi
      rw [ha]
      rcases hi with hi | ⟨_, rfl⟩
      · have := hbelow i e hi hne
        simp only; omega
      · simp only; omega
    · intro i e hi hl
      rw [hlog, getElem?_snoc] at hi
      rw [ha]
      rcases hi with hi | ⟨_, rfl⟩
      · have := hends i e hi hl
        simp only; omega
      · simp only; omega
    · intro i j e f hij hi hj hle hlf
      rw [hlog, getElem?_snoc] at hi hj
      rcases hi with hi | ⟨hil, rfl⟩
      · rcases hj with hj | ⟨_, rfl⟩
        · exact hsep i j e f hij hi hj hle hlf
        · have := hends i e hi hle
          left; simp only; omega
      · rcases hj with hj | ⟨hjl, rfl⟩
        · have := hends j f hj hlf
          right; simp only; omega
        · omega
    · intro k e hk hpt j f hjk hj hlf
      rw [hlog, getElem?_snoc] at hk hj
      rw [ha] at hpt
      simp only at hpt
      rcases hk with hk | ⟨hkl, rfl⟩
      · by_cases hne : e.ptr = ARENA_NULL
        · simp only [ARENA_NULL] at hne; omega
        · have := hbelow k e hk hne
          omega
      · rcases hj with hj | ⟨hjl, rfl⟩
        · have := hends j f hj hlf
          simp only; omega
        · omega
  | grown k e0 hk0 hpt0 hne0 hfit ha hlog =>
    have hk0b := hbelow k e0 hk0 hne0
    refine ⟨by rw [ha]; exact hb, by rw [ha]; exact hcap, by rw [ha]; exact hfit, ?_, ?_, ?_, ?_⟩
    · intro i e hi hne
      rw [hlog, getElem?_snoc] at hi
      rw [ha]
      rcases hi with hi | ⟨_, rfl⟩
      · rcases getElem?_retire _ _ _ _ hi with ⟨_, hi'⟩ | ⟨_, e1, hi', rfl⟩
        · have := hbelow i e hi' hne
          simp only; omega
        · have := hbelow k e1 hi' hne
          simp only; omega
      · simp only; omega
    · intro i e hi hl
      rw [hlog, getElem?_snoc] at hi
      rw [ha]
      rcases hi with hi | ⟨_, rfl⟩
      · rcases getElem?_retire _ _ _ _ hi with ⟨hik, hi'⟩ | ⟨_, e1, hi', rfl⟩
        · have := htail k e0 hk0 hpt0 i e hik hi' hl
          simp only; omega
        · simp at hl
      · simp only; omega
    · intro i j e f hij hi hj hle hlf
      rw [hlog, getElem?_snoc] at hi hj
      rcases hi with hi | ⟨hil, rfl⟩
      · rcases getElem?_retire _ _ _ _ hi with ⟨hik, hi'⟩ | ⟨_, e1, hi', rfl⟩
        · rcases hj with hj | ⟨_, rfl⟩
          · rcases getElem?_retire _ _ _ _ hj with ⟨hjk, hj'⟩ | ⟨_, f1, hj', rfl⟩
            · exact hsep i j e f hij hi' hj' hle hlf
            · simp at hlf
          · have := htail k e0 hk0 hpt0 i e hik hi' hle
            left; simp only; omega
        · simp at hle
      · rcases hj with hj | ⟨hjl, rfl⟩
        · rcases getElem?_retire _ _ _ _ hj with ⟨hjk, hj'⟩ | ⟨_, f1, hj', rfl⟩
          · have := htail k e0 hk0 hpt0 j f hjk hj' hlf
            right; simp only; omega
          · simp at hlf
        · omega
    · intro k' e hk hpt j f hjk hj hlf
      rw [hlog, getElem?_snoc] at hk
      rw [ha] at hpt
      simp only at hpt
      exfalso
      rcases hk with hk | ⟨hkl, rfl⟩
      · rcases getElem?_retire _ _ _ _ hk with ⟨_, hk'⟩ | ⟨_, e1, hk', rfl⟩
        · by_cases hne : e.ptr = ARENA_NULL
          · simp only [ARENA_NULL] at hne; omega
          · have := hbelow k' e hk' hne
            omega
        · by_cases hne : e1.ptr = ARENA_NULL
          · simp only [ARENA_NULL] at hne; simp only at hpt; omega
          · have := hbelow k e1 hk' hne
            simp only at hpt; omega
      · simp only at hpt; omega

theorem Inv.step (c : Client) (r : Request) (hinv : Inv c) (hr : r.sized) : Inv (c.step r) :=
  Inv.of_outcome c (c.step r) (align r.bytes) hinv hr.1 (step_outcome c r hinv hr)

theorem Inv.run (rs : List Request) :
    ∀ c : Client, Inv c → (∀ r ∈ rs, r.sized) → Inv (c.run rs) := by
  induction rs with
  | nil => intro c hinv _; exact hinv
  | cons r rs ih =>
    intro c hinv hrs
    exact ih (c.step r) (Inv.step c r hinv (hrs r (List.mem_cons_self r rs)))
      (fun r' hr' => hrs r' (List.mem_cons_of_mem r hr'))

theorem Inv.initial (a : arena) (m : Mem) (hb : a.base ≠ ARENA_NULL)
    (hoff : a.offset ≤ a.size) (hcap : a.size + UINT_MOD ≤ ULONG_MOD) : Inv ⟨a, m, []⟩ :=
  ⟨hb, hcap, hoff, fun i e h => by simp at h, fun i e h => by simp at h,
   fun i j e f _ h => by simp at h, fun k e h => by simp at h⟩

/-! ## C3 -/

/-- C3 (counterexample): on the test program's arena, `a = arena_malloc(0)`,
`b = arena_malloc(16)`, `a = arena_realloc(a, 16)`. The zero-size block and the 16-byte block
share the address `base`; the reallocation finds `a` at `offset_last` and resizes it in
place, so the second and third calls both hold `[base, base + 16)`. -/
theorem zero_size_regions_overlap :
    (Client.run ⟨arena1, mem0, []⟩ [.malloc 0, .malloc 16, .realloc 0 16]).log
      = [⟨65536, 0, false⟩, ⟨65536, 16, true⟩, ⟨65536, 16, true⟩] ∧
    ¬ NoOverlap (Client.run ⟨arena1, mem0, []⟩ [.malloc 0, .malloc 16, .realloc 0 16]).log := by
  have hlog : (Client.run ⟨arena1, mem0, []⟩ [.malloc 0, .malloc 16, .realloc 0 16]).log
      = [⟨65536, 0, false⟩, ⟨65536, 16, true⟩, ⟨65536, 16, true⟩] := by decide
  refine ⟨hlog, ?_⟩
  rw [hlog]
  intro h
  have hd := h 1 2 (by decide) ⟨65536, 16, true⟩ ⟨65536, 16, true⟩ rfl rfl rfl rfl
  revert hd
  decide

/-- C3 (amended): on an arena with non-null base, `offset ≤ size` and capacity at most
`2 ^ 64 - 2 ^ 32`, after any sequence of `arena_malloc` and `arena_realloc` calls whose
requested sizes have a non-zero aligned value below `2 ^ 32`, each `arena_realloc` being
passed null or the pointer returned by an earlier call, the regions held by two distinct
calls are disjoint. A region stays held after its block was moved by a later call. -/
theorem regions_disjoint (a : arena) (m : Mem) (rs : List Request)
    (hb : a.base ≠ ARENA_NULL) (hoff : a.offset ≤ a.size)
    (hcap : a.size + UINT_MOD ≤ ULONG_MOD) (hrs : ∀ r ∈ rs, r.sized) :
    NoOverlap (Client.run ⟨a, m, []⟩ rs).log := by
  have hinv := Inv.run rs ⟨a, m, []⟩ (Inv.initial a m hb hoff hcap) hrs
  intro i j hij e f hi hj hle hlf
  rcases hinv.sep i j e f hij hi hj hle hlf with h | h
  · exact Or.inr (Or.inr (Or.inl h))
  · exact Or.inr (Or.inr (Or.inr h))

/-- C3 (amended) on the five allocating calls of the test program. -/
theorem regions_disjoint_witness :
    arena1.base ≠ ARENA_NULL ∧
    (∀ r ∈ [Request.malloc 40, .realloc 0 52, .malloc 12000, .realloc 1 80, .realloc 3 160],
      r.sized) ∧
    NoOverlap (Client.run ⟨arena1, mem0, []⟩
      [.malloc 40, .realloc 0 52, .malloc 12000, .realloc 1 80, .realloc 3 160]).log :=
  ⟨by decide, by decide,
   regions_disjoint arena1 mem0
     [.malloc 40, .realloc 0 52, .malloc 12000, .realloc 1 80, .realloc 3 160]
     (by decide) (by decide) (by decide) (by decide)⟩

/-! ## C7 -/

/-- C7 (counterexample): on the test program's arena, `p = arena_malloc(16)` followed by
`arena_realloc(p, 0)` (in place) leaves `offset = 0` and `offset_last = 16`. The pointer `p`
was returned before and is not at `offset_last`, yet `arena_realloc(p, 16)` succeeds and
returns `p` itself. -/
theorem slow_path_returns_same_address :
    (Client.run ⟨arena1, mem0, []⟩ [.malloc 16, .realloc 0 0]).a
      = ⟨65536, 0, 16, 10485760, 1, 2⟩ ∧
    65536 ∈ (Client.run ⟨arena1, mem0, []⟩ [.malloc 16, .realloc 0 0]).log.map Entry.ptr ∧
    (65536 : Nat) ≠ 65536 + 16 ∧
    (arena_realloc ⟨65536, 0, 16, 10485760, 1, 2⟩ mem0 65536 16).1 ≠ ARENA_NULL ∧
    (arena_realloc ⟨65536, 0, 16, 10485760, 1, 2⟩ mem0 65536 16).1 = 65536 := by
  decide

/-- C7 (amended): in every state reached from an arena with non-null base, `offset ≤ size`
and capacity at most `2 ^ 64 - 2 ^ 32` by `arena_malloc` and `arena_realloc` calls whose
requested sizes have a non-zero aligned value below `2 ^ 32`, for every previously returned
non-null pointer that is not at `offset_last`, a successful `arena_realloc` of any size
returns an address different from the pointer. -/
theorem realloc_non_tail_moves (a : arena) (m : Mem) (rs : List Request)
    (hb : a.base ≠ ARENA_NULL) (hoff : a.offset ≤ a.size)
    (hcap : a.size + UINT_MOD ≤ ULONG_MOD) (hrs : ∀ r ∈ rs, r.sized)
    (m' : Mem) (ptr new_size : Nat)
    (hprev : ptr ∈ (Client.run ⟨a, m, []⟩ rs).log.map Entry.ptr) (hptr : ptr ≠ ARENA_NULL)
    (hnt : ptr ≠ (Client.run ⟨a, m, []⟩ rs).a.base + (Client.run ⟨a, m, []⟩ rs).a.offset_last)
    (hok : (arena_realloc (Client.run ⟨a, m, []⟩ rs).a m' ptr new_size).1 ≠ ARENA_NULL) :
    (arena_realloc (Client.run ⟨a, m, []⟩ rs).a m' ptr new_size).1 ≠ ptr := by
  have hinv := Inv.run rs ⟨a, m, []⟩ (Inv.initial a m hb hoff hcap) hrs
  obtain ⟨e, he, hep⟩ := List.mem_map.1 hprev
  obtain ⟨i, hi⟩ := List.getElem?_of_mem he
  have hlt := (hinv.below i e hi (by rw [hep]; exact hptr)).1
  rw [(arena_realloc_slow _ m' ptr new_size hptr hnt hok).1]
  omega

/-- C7 (amended) on the test program: before the third `arena_realloc` the block at `base`
is not the tail, and reallocating it to 80 bytes returns `base + 12064`. -/
theorem realloc_non_tail_moves_witness :
    arena1.base ≠ ARENA_NULL ∧
    (∀ r ∈ [Request.malloc 40, .realloc 0 52, .malloc 12000], r.sized) ∧
    65536 ∈ (Client.run ⟨arena1, mem0, []⟩
      [.malloc 40, .realloc 0 52, .malloc 12000]).log.map Entry.ptr ∧
    (arena_realloc (Client.run ⟨arena1, mem0, []⟩
      [.malloc 40, .realloc 0 52, .malloc 12000]).a mem0 65536 80).1 ≠ 65536 :=
  ⟨by decide, by decide, by decide,
   realloc_non_tail_moves arena1 mem0 [.malloc 40, .realloc 0 52, .malloc 12000]
     (by decide) (by decide) (by decide) (by decide) mem0 65536 80 (by decide) (by decide)
     (by decide) (by decide)⟩

/-! ## C10 -/

/-- C10: evaluation of `arena_realloc` after two 16-byte allocations on the test program's
arena, on the first block (not the tail) and a new size of `2 ^ 32` bytes. The slow path
calls `arena_malloc`, which cuts the aligned size to `unsigned int` zero: the call returns
the non-null pointer `base + 32` although `32 + align (2 ^ 32) > size`. -/
theorem arena_realloc_truncates_request :
    (Client.run ⟨arena1, mem0, []⟩ [.malloc 16, .malloc 16]).a
      = ⟨65536, 32, 16, 10485760, 1, 2⟩ ∧
    (arena_realloc ⟨65536, 32, 16, 10485760, 1, 2⟩ mem0 65536 4294967296).1 = 65536 + 32 ∧
    (arena_realloc ⟨65536, 32, 16, 10485760, 1, 2⟩ mem0 65536 4294967296).2.1
      = ⟨65536, 32, 32, 10485760, 1, 2⟩ ∧
    32 + align 4294967296 > 10485760 := by
  decide

/-! ## States reachable from an acquiring `arena_init` -/

theorem arena_malloc_bounded (a : arena) (n : Nat) (h : Bounded a) :
    Bounded (arena_malloc a n).2 := by
  obtain ⟨h1, h2, h3⟩ := h
  rw [ULONG_MOD_val] at h3
  simp only [arena_malloc, Bounded]
  split
  · exact ⟨h1, h2, by rw [ULONG_MOD_val]; exact h3⟩
  · rename_i hc
    refine ⟨?_, h1, by rw [ULONG_MOD_val]; exact h3⟩
    show ul_add a.offset _ ≤ a.size
    split
    · exact Nat.le_of_not_lt hc
    · simp only [ul_add, ULONG_MOD_val]; omega

theorem arena_realloc_bounded (a : arena) (m : Mem) (ptr n : Nat) (h : Bounded a) :
    Bounded (arena_realloc a m ptr n).2.1 := by
  have hm := arena_malloc_bounded a (ARENA_ALIGN n) h
  simp only [arena_realloc]
  split_ifs with h1 h2 h3 h4 h5
  · exact hm
  · exact ⟨h3, h.1, h.2.2⟩
  · exact hm
  · exact hm
  · exact hm
  · exact hm

theorem arena_init_bounded (pv : Provider) (a : arena) (size : Nat) (h : Bounded a)
    (hs : size < ULONG_MOD) : Bounded (arena_init pv a size).2 := by
  unfold Bounded at h ⊢
  by_cases hb : a.base = ARENA_NULL
  · by_cases h1 : a.allocator = 0 <;> by_cases h2 : a.deallocator = 0 <;>
      simp only [arena_init, hb, h1, h2, if_true, if_false] <;> split <;> simp [h, hs]
  · simp only [arena_init, hb, if_false]
    exact h

theorem arena_init_acquire_bounded (pv : Provider) (a : arena) (size : Nat)
    (hb : a.base = ARENA_NULL) (hs : size < ULONG_MOD) (hok : (arena_init pv a size).1 = 1) :
    Bounded (arena_init pv a size).2 := by
  unfold Bounded
  by_cases h1 : a.allocator = 0 <;> by_cases h2 : a.deallocator = 0 <;>
    simp only [arena_init, hb, h1, h2, if_true, if_false] at hok ⊢ <;> split at hok <;>
    simp_all

theorem FromInit.bounded {a : arena} (h : FromInit a) : Bounded a := by
  induction h with
  | init pv a0 size hb hs hok => exact arena_init_acquire_bounded pv a0 size hb hs hok
  | reinit pv a size _ hs ih => exact arena_init_bounded pv a size ih hs
  | malloc a n _ ih => exact arena_malloc_bounded a n ih
  | realloc a m ptr n _ ih => exact arena_realloc_bounded a m ptr n ih
  | reset a _ ih => exact ⟨Nat.zero_le _, Nat.zero_le _, ih.2.2⟩
  | free a _ ih =>
    simp only [arena_free]
    split
    · exact ⟨Nat.le_refl _, Nat.le_refl _, by simp [ULONG_MOD_val]⟩
    · exact ih

/-! ## C11 -/

/-- C11 (counterexample): on the test program's arena, `p = arena_malloc(40)` followed by
`arena_realloc(p, 16)`. The block shrinks in place: `offset` becomes 16 while `offset_last`
is set to the old offset 48, so `offset_last ≤ offset` fails in a reachable state. -/
theorem in_place_shrink_breaks_order :
    FromInit (arena_realloc (arena_malloc arena1 40).2 mem0 (arena_malloc arena1 40).1 16).2.1 ∧
    (arena_malloc arena1 40).1 = 65536 ∧
    (arena_realloc (arena_malloc arena1 40).2 mem0 (arena_malloc arena1 40).1 16).1 = 65536 ∧
    (arena_realloc (arena_malloc arena1 40).2 mem0 (arena_malloc arena1 40).1 16).2.1
      = ⟨65536, 16, 48, 10485760, 1, 2⟩ ∧
    ¬ ((48 : Nat) ≤ 16) :=
  ⟨FromInit.realloc _ mem0 _ 16
      (FromInit.malloc _ 40 (FromInit.init pv0 arena0 10485760 (by decide) (by decide) (by decide))),
   by decide, by decide, by decide, by decide⟩

/-- C11 (amended): in every state reachable from an `arena_init` that acquired a block, by
any sequence of `arena_init`, `arena_malloc`, `arena_realloc`, `arena_reset` and
`arena_free` calls, `0 ≤ offset ≤ size` and `0 ≤ offset_last ≤ size`. -/
theorem offsets_within_capacity (a : arena) (h : FromInit a) :
    0 ≤ a.offset ∧ a.offset ≤ a.size ∧ 0 ≤ a.offset_last ∧ a.offset_last ≤ a.size :=
  ⟨Nat.zero_le _, h.bounded.1, Nat.zero_le _, h.bounded.2.1⟩


/-- C11 (amended) on the state of the counterexample: both offsets are within the capacity. -/
theorem offsets_within_capacity_witness :
    FromInit (arena_realloc (arena_malloc arena1 40).2 mem0 65536 16).2.1 ∧
    (0 ≤ (arena_realloc (arena_malloc arena1 40).2 mem0 65536 16).2.1.offset ∧
     (arena_realloc (arena_malloc arena1 40).2 mem0 65536 16).2.1.offset
       ≤ (arena_realloc (arena_malloc arena1 40).2 mem0 65536 16).2.1.size ∧
     0 ≤ (arena_realloc (arena_malloc arena1 40).2 mem0 65536 16).2.1.offset_last ∧
     (arena_realloc (arena_malloc arena1 40).2 mem0 65536 16).2.1.offset_last
       ≤ (arena_realloc (arena_malloc arena1 40).2 mem0 65536 16).2.1.size) :=
  ⟨FromInit.realloc _ mem0 65536 16
      (FromInit.malloc _ 40
        (FromInit.init pv0 arena0 10485760 (by decide) (by decide) (by decide))),
   offsets_within_capacity _
      (FromInit.realloc _ mem0 65536 16
        (FromInit.malloc _ 40
          (FromInit.init pv0 arena0 10485760 (by decide) (by decide) (by decide))))⟩

theorem arena_malloc_result (a : arena) (n : Nat) (h : (arena_malloc a n).1 ≠ ARENA_NULL) :
    (arena_malloc a n).1 = a.base + a.offset ∧
    ul_add a.offset (ARENA_ALIGN n % UINT_MOD) ≤ a.size := by
  simp only [arena_malloc] at h ⊢
  split
  · rename_i hc; rw [if_pos hc] at h; exact absurd rfl h
  · rename_i hc; exact ⟨rfl, Nat.le_of_not_lt hc⟩

/-- A successful `arena_realloc` either stays in place at `base + offset_last` or returns
the block `arena_malloc` hands out at `base + offset`. -/
theorem arena_realloc_result (a : arena) (m : Mem) (ptr n : Nat)
    (h : (arena_realloc a m ptr n).1 ≠ ARENA_NULL) :
    ((arena_realloc a m ptr n).1 = a.base + a.offset_last ∧
      ul_add a.offset (ul_sub (ARENA_ALIGN n) (ul_sub a.offset a.offset_last)) ≤ a.size) ∨
    ((arena_realloc a m ptr n).1 = a.base + a.offset ∧
      ul_add a.offset (ARENA_ALIGN n % UINT_MOD) ≤ a.size) := by
  have hm := arena_malloc_result a (ARENA_ALIGN n)
  rw [ARENA_ALIGN_idem] at hm
  simp only [arena_realloc] at h ⊢
  split_ifs at h ⊢ with h1 h2 h3 h4 h5
  · exact Or.inr (hm h)
  · exact Or.inl ⟨h2, h3⟩
  · exact Or.inr (hm h4)
  · exact absurd h h4
  · exact Or.inr (hm h5)
  · exact absurd h h5

theorem Call.exec_result (a : arena) (m : Mem) (c : Call)
    (h : (c.exec a m).1 ≠ ARENA_NULL) :
    ((c.exec a m).1 = a.base + a.offset_last ∧
      ul_add a.offset (ul_sub (ARENA_ALIGN c.bytes) (ul_sub a.offset a.offset_last)) ≤ a.size) ∨
    ((c.exec a m).1 = a.base + a.offset ∧
      ul_add a.offset (ARENA_ALIGN c.bytes % UINT_MOD) ≤ a.size) := by
  cases c with
  | malloc n => exact Or.inr (arena_malloc_result a n h)
  | realloc ptr n => exact arena_realloc_result a m ptr n h

/-! ## C12 -/

/-- C12 (counterexample): on the test program's arena, `arena_malloc(10485760)` fills the
block and a following `arena_malloc(0)` succeeds with the pointer `base + size`, one past
the end of the block. -/
theorem zero_size_pointer_at_end :
    FromInit (arena_malloc arena1 10485760).2 ∧
    (arena_malloc arena1 10485760).2 = ⟨65536, 10485760, 0, 10485760, 1, 2⟩ ∧
    (arena_malloc (arena_malloc arena1 10485760).2 0).1 ≠ ARENA_NULL ∧
    (arena_malloc (arena_malloc arena1 10485760).2 0).1 = 65536 + 10485760 ∧
    ¬ ((arena_malloc (arena_malloc arena1 10485760).2 0).1 - 65536 < 10485760) :=
  ⟨FromInit.malloc _ 10485760
      (FromInit.init pv0 arena0 10485760 (by decide) (by decide) (by decide)),
   by decide, by decide, by decide, by decide⟩

/-- C12 (amended): in every state reachable from an `arena_init` that acquired a block,
with capacity at most `2 ^ 64 - 2 ^ 32`, every non-null pointer returned by `arena_malloc`
or `arena_realloc` for a requested size whose aligned value is non-zero and below `2 ^ 32`
lies in `[base, base + size)`. -/
theorem returned_pointer_in_block (a : arena) (m : Mem) (c : Call) (h : FromInit a)
    (hcap : a.size + UINT_MOD ≤ ULONG_MOD)
    (hpos : 0 < align c.bytes) (h32 : align c.bytes < UINT_MOD)
    (hr : (c.exec a m).1 ≠ ARENA_NULL) :
    a.base ≤ (c.exec a m).1 ∧ (c.exec a m).1 - a.base < a.size := by
  obtain ⟨h1, h2, h3⟩ := h.bounded
  rw [ULONG_MOD_val, UINT_MOD_val] at hcap
  rw [UINT_MOD_val] at h32
  have hn : c.bytes + 15 < 18446744073709551616 := by
    rw [align_eq] at h32; omega
  have hA : ARENA_ALIGN c.bytes = align c.bytes := ARENA_ALIGN_of_lt _ hn
  rcases Call.exec_result a m c hr with ⟨hp, hfit⟩ | ⟨hp, hfit⟩
  · rw [fast_offset, hA] at hfit
    rw [hp]
    omega
  · rw [hA] at hfit
    simp only [ul_add, ULONG_MOD_val, UINT_MOD_val] at hfit
    rw [hp]
    omega

/-- C12 (amended) on the first `arena_malloc` of the test program. -/
theorem returned_pointer_in_block_witness :
    FromInit arena1 ∧
    arena1.base ≤ ((Call.malloc 40).exec arena1 mem0).1 ∧
    ((Call.malloc 40).exec arena1 mem0).1 - arena1.base < arena1.size :=
  ⟨FromInit.init pv0 arena0 10485760 (by decide) (by decide) (by decide),
   returned_pointer_in_block arena1 mem0 (.malloc 40)
     (FromInit.init pv0 arena0 10485760 (by decide) (by decide) (by decide))
     (by decide) (by decide) (by decide) (by decide)⟩

/-! ## C13 -/

theorem ARENA_ALIGN_mod (n : Nat) : ARENA_ALIGN n % 16 = 0 := by
  rw [ARENA_ALIGN_eq]; omega

theorem arena_malloc_aligned (a : arena) (n : Nat) (h : Aligned a) :
    Aligned (arena_malloc a n).2 := by
  obtain ⟨h1, h2⟩ := h
  have hA := ARENA_ALIGN_mod n
  simp only [Aligned, ARENA_ALIGNMENT] at h1 h2 ⊢
  simp only [arena_malloc]
  split
  · exact ⟨h1, h2⟩
  · refine ⟨?_, h1⟩
    show ul_add a.offset _ % 16 = 0
    split <;> simp only [ul_add, ULONG_MOD_val, UINT_MOD_val] <;> omega

theorem arena_realloc_aligned (a : arena) (m : Mem) (ptr n : Nat) (h : Aligned a) :
    Aligned (arena_realloc a m ptr n).2.1 := by
  have hm := arena_malloc_aligned a (ARENA_ALIGN n) h
  simp only [arena_realloc]
  split_ifs with h1 h2 h3 h4 h5
  · exact hm
  · obtain ⟨ha, hb⟩ := h
    have hA := ARENA_ALIGN_mod n
    simp only [Aligned, ARENA_ALIGNMENT] at ha hb ⊢
    refine ⟨?_, ha⟩
    show ul_add a.offset _ % 16 = 0
    rw [fast_offset]
    omega
  · exact hm
  · exact hm
  · exact hm
  · exact hm

theorem arena_init_aligned (pv : Provider) (a : arena) (size : Nat) (h : Aligned a) :
    Aligned (arena_init pv a size).2 := by
  unfold Aligned at h ⊢
  by_cases hb : a.base = ARENA_NULL
  · by_cases h1 : a.allocator = 0 <;> by_cases h2 : a.deallocator = 0 <;>
      simp only [arena_init, hb, h1, h2, if_true, if_false] <;> split <;> simp [h]
  · simp only [arena_init, hb, if_false]
    exact h

theorem arena_init_acquire_aligned (pv : Provider) (a : arena) (size : Nat)
    (hb : a.base = ARENA_NULL) (hok : (arena_init pv a size).1 = 1) :
    Aligned (arena_init pv a size).2 := by
  unfold Aligned
  by_cases h1 : a.allocator = 0 <;> by_cases h2 : a.deallocator = 0 <;>
    simp only [arena_init, hb, h1, h2, if_true, if_false] at hok ⊢ <;> split at hok <;>
    simp_all

theorem FromInit.aligned {a : arena} (h : FromInit a) : Aligned a := by
  induction h with
  | init pv a0 size hb _ hok => exact arena_init_acquire_aligned pv a0 size hb hok
  | reinit pv a size _ _ ih => exact arena_init_aligned pv a size ih
  | malloc a n _ ih => exact arena_malloc_aligned a n ih
  | realloc a m ptr n _ ih => exact arena_realloc_aligned a m ptr n ih
  | reset a _ _ => exact ⟨rfl, rfl⟩
  | free a _ ih =>
    simp only [arena_free]
    split
    · exact ⟨rfl, rfl⟩
    · exact ih

/-- C13: in every state reachable from an `arena_init` that acquired a block, by any
sequence of `arena_init`, `arena_malloc`, `arena_realloc`, `arena_reset` and `arena_free`
calls, `offset` and `offset_last` are multiples of `ARENA_ALIGNMENT`, and every non-null
pointer returned by `arena_malloc` or `arena_realloc` is `base` plus a multiple of
`ARENA_ALIGNMENT`. -/
theorem offsets_and_pointers_aligned (a : arena) (h : FromInit a) :
    a.offset % ARENA_ALIGNMENT = 0 ∧ a.offset_last % ARENA_ALIGNMENT = 0 ∧
    ∀ (m : Mem) (c : Call), (c.exec a m).1 ≠ ARENA_NULL →
      a.base ≤ (c.exec a m).1 ∧ ((c.exec a m).1 - a.base) % ARENA_ALIGNMENT = 0 := by
  obtain ⟨h1, h2⟩ := h.aligned
  refine ⟨h1, h2, fun m c hr => ?_⟩
  rcases Call.exec_result a m c hr with ⟨hp, _⟩ | ⟨hp, _⟩
  · rw [hp]
    exact ⟨Nat.le_add_right _ _, by rw [Nat.add_sub_cancel_left]; exact h2⟩
  · rw [hp]
    exact ⟨Nat.le_add_right _ _, by rw [Nat.add_sub_cancel_left]; exact h1⟩

/-- C13 on the freshly initialised arena of the test program. -/
theorem offsets_and_pointers_aligned_witness :
    FromInit arena1 ∧
    (arena1.offset % ARENA_ALIGNMENT = 0 ∧ arena1.offset_last % ARENA_ALIGNMENT = 0 ∧
      ∀ (m : Mem) (c : Call), (c.exec arena1 m).1 ≠ ARENA_NULL →
        arena1.base ≤ (c.exec arena1 m).1 ∧
        ((c.exec arena1 m).1 - arena1.base) % ARENA_ALIGNMENT = 0) :=
  ⟨FromInit.init pv0 arena0 10485760 (by decide) (by decide) (by decide),
   offsets_and_pointers_aligned arena1
     (FromInit.init pv0 arena0 10485760 (by decide) (by decide) (by decide))⟩

/-! ## C14 -/

/-- Successful sized allocations return increasing addresses, all at or above the bump
offset the sequence starts from. -/
theorem malloc_run_chain (ns : List Nat) :
    ∀ a : arena, a.base ≠ ARENA_NULL → a.offset ≤ a.size → a.size + UINT_MOD ≤ ULONG_MOD →
      (∀ n ∈ ns, 0 < align n ∧ align n < UINT_MOD) →
      (∀ r ∈ malloc_run a ns, r ≠ ARENA_NULL) →
      List.Chain' (fun p q => p < q) (malloc_run a ns) ∧
      ∀ r ∈ malloc_run a ns, a.base + a.offset ≤ r := by
  induction ns with
  | nil => intro a _ _ _ _ _; exact ⟨List.chain'_nil, fun r hr => by simp [malloc_run] at hr⟩
  | cons n ns ih =>
    intro a hb hoff hcap hsz hok
    have hn := hsz n (List.mem_cons_self n ns)
    have hm := arena_malloc_sized a n hb hcap hoff hn.2
    have hr1 : (arena_malloc a n).1 ≠ ARENA_NULL := hok _ (List.mem_cons_self _ _)
    by_cases hfit : a.offset + align n ≤ a.size
    · rw [if_pos hfit] at hm
      have e1 : (arena_malloc a n).1 = a.base + a.offset := by rw [hm]
      have e2 : (arena_malloc a n).2
          = { a with offset_last := a.offset, offset := a.offset + align n } := by rw [hm]
      have ih' := ih (arena_malloc a n).2 (by rw [e2]; exact hb) (by rw [e2]; exact hfit)
        (by rw [e2]; exact hcap) (fun k hk => hsz k (List.mem_cons_of_mem n hk))
        (fun r hr => hok r (List.mem_cons_of_mem _ hr))
      rw [e2] at ih'
      simp only [malloc_run]
      rw [e1, e2]
      refine ⟨?_, ?_⟩
      · rw [List.chain'_cons']
        refine ⟨fun y hy => ?_, ih'.1⟩
        have := ih'.2 y (List.mem_of_mem_head? hy)
        simp only at this
        omega
      · intro r hr
        rcases List.mem_cons.1 hr with h | h
        · rw [h]
        · have := ih'.2 r h
          simp only at this
          omega
    · rw [if_neg hfit] at hm
      rw [hm] at hr1
      exact absurd rfl hr1

/-- C14 (counterexample): on the test program's arena, `arena_malloc(0)` followed by
`arena_malloc(16)`. Both calls succeed and both return `base`, so the second address is
not greater than the first. -/
theorem zero_size_malloc_repeats_address :
    malloc_run arena1 [0, 16] = [65536, 65536] ∧
    (∀ r ∈ malloc_run arena1 [0, 16], r ≠ ARENA_NULL) ∧
    ¬ List.Chain' (fun p q => p < q) (malloc_run arena1 [0, 16]) := by
  have h : malloc_run arena1 [0, 16] = [65536, 65536] := by decide
  refine ⟨h, by decide, ?_⟩
  rw [h]
  intro hc
  exact absurd (List.chain'_pair.1 hc) (by decide)

/-- C14 (amended): on an arena with non-null base, `offset ≤ size` and capacity at most
`2 ^ 64 - 2 ^ 32`, for every sequence of successful `arena_malloc` calls whose requested
sizes have a non-zero aligned value below `2 ^ 32`, each call returns an address strictly
greater than the one returned by the previous call. -/
theorem malloc_addresses_increase (a : arena) (ns : List Nat)
    (hb : a.base ≠ ARENA_NULL) (hoff : a.offset ≤ a.size)
    (hcap : a.size + UINT_MOD ≤ ULONG_MOD)
    (hsz : ∀ n ∈ ns, 0 < align n ∧ align n < UINT_MOD)
    (hok : ∀ r ∈ malloc_run a ns, r ≠ ARENA_NULL) :
    List.Chain' (fun p q => p < q) (malloc_run a ns) :=
  (malloc_run_chain ns a hb hoff hcap hsz hok).1

/-- C14 (amended) on three allocations from the test program's arena. -/
theorem malloc_addresses_increase_witness :
    arena1.base ≠ ARENA_NULL ∧
    (∀ r ∈ malloc_run arena1 [40, 12000, 80], r ≠ ARENA_NULL) ∧
    List.Chain' (fun p q => p < q) (malloc_run arena1 [40, 12000, 80]) :=
  ⟨by decide, by decide,
   malloc_addresses_increase arena1 [40, 12000, 80] (by decide) (by decide) (by decide)
     (by decide) (by decide)⟩

/-! ## C15, C16 -/

/-- C15: `arena_reset` sets `offset` and `offset_last` to zero and leaves base, size and
the provider fields unchanged (it takes no memory argument: no byte is touched); on an arena
with non-null base and for `n` with `align n ≤ size` and `align n < 2 ^ 32`, `arena_reset`
followed by `arena_malloc(n)` returns `base`. -/
theorem reset_then_malloc (a : arena) (n : Nat)
    (hbase : a.base ≠ ARENA_NULL) (hsize : a.size < ULONG_MOD)
    (hfit : align n ≤ a.size) (h32 : align n < 2 ^ 32) :
    arena_reset a = ⟨a.base, 0, 0, a.size, a.allocator, a.deallocator⟩ ∧
    (arena_malloc (arena_reset a) n).1 = a.base := by
  refine ⟨rfl, ?_⟩
  rw [malloc_of_fit (arena_reset a) n hbase hsize h32 (by simp only [arena_reset]; omega)]
  simp [arena_reset]

/-- C15 on the final state of the test program. -/
theorem reset_then_malloc_witness :
    (⟨65536, 12224, 12144, 10485760, 1, 2⟩ : arena).base ≠ ARENA_NULL ∧
    arena_reset ⟨65536, 12224, 12144, 10485760, 1, 2⟩ = ⟨65536, 0, 0, 10485760, 1, 2⟩ ∧
    (arena_malloc (arena_reset ⟨65536, 12224, 12144, 10485760, 1, 2⟩) 40).1 = 65536 :=
  ⟨by decide,
   reset_then_malloc ⟨65536, 12224, 12144, 10485760, 1, 2⟩ 40 (by decide) (by decide)
     (by decide) (by decide)⟩

/-- C16: on an arena with non-null base `arena_free` calls the deallocator once, with the
old base, and leaves `base = null`, `offset = 0`, `offset_last = 0`, `size = 0`; on an arena
with null base it changes nothing and calls nothing; a second `arena_free` in a row changes
nothing and calls nothing. -/
theorem arena_free_effect (a : arena) :
    (a.base ≠ ARENA_NULL →
      arena_free a =
        (⟨ARENA_NULL, 0, 0, 0, a.allocator, a.deallocator⟩, [(a.deallocator, a.base)])) ∧
    (a.base = ARENA_NULL → arena_free a = (a, [])) ∧
    arena_free (arena_free a).1 = ((arena_free a).1, []) := by
  refine ⟨fun h => ?_, fun h => ?_, ?_⟩
  · simp only [arena_free, if_pos h]
  · simp only [arena_free, h, ne_eq, not_true_eq_false, if_false]
  · by_cases h : a.base = ARENA_NULL
    · simp only [arena_free, h, ne_eq, not_true_eq_false, if_false]
    · simp only [arena_free, if_pos h, ne_eq, not_true_eq_false, if_false]

/-- C16 on the test program's arena and on the released arena. -/
theorem arena_free_effect_witness :
    arena_free ⟨65536, 0, 0, 10485760, 1, 2⟩ = (⟨0, 0, 0, 0, 1, 2⟩, [(2, 65536)]) ∧
    arena_free ⟨0, 0, 0, 0, 1, 2⟩ = (⟨0, 0, 0, 0, 1, 2⟩, []) :=
  ⟨(arena_free_effect ⟨65536, 0, 0, 10485760, 1, 2⟩).1 (by decide),
   (arena_free_effect ⟨0, 0, 0, 0, 1, 2⟩).2.1 (by decide)⟩

/-! ## C17, C18, C19 -/

/-- `arena_init` on an arena with null base: the outcome is decided by what the resolved
allocator returns. -/
theorem arena_init_acquire (pv : Provider) (a : arena) (size : Nat)
    (hb : a.base = ARENA_NULL) :
    arena_init pv a size =
      if pv.call (if a.allocator = 0 then pv.allocator_default else a.allocator) size
          = ARENA_NULL then
        (0, ⟨ARENA_NULL, a.offset, a.offset_last, a.size,
              if a.allocator = 0 then pv.allocator_default else a.allocator,
              if a.deallocator = 0 then pv.deallocator_default else a.deallocator⟩)
      else
        (1, ⟨pv.call (if a.allocator = 0 then pv.allocator_default else a.allocator) size,
              0, 0, size,
              if a.allocator = 0 then pv.allocator_default else a.allocator,
              if a.deallocator = 0 then pv.deallocator_default else a.deallocator⟩) := by
  by_cases h1 : a.allocator = 0 <;> by_cases h2 : a.deallocator = 0 <;>
    simp only [arena_init, hb, h1, h2, if_true, if_false] <;> split <;> simp_all


theorem arena_free_base (a : arena) : (arena_free a).1.base = ARENA_NULL := by
  simp only [arena_free]
  split
  · rfl
  · rename_i h; simpa using h

theorem arena_init_acquire_ok (pv : Provider) (a : arena) (size : Nat)
    (hb : a.base = ARENA_NULL) (hok : (arena_init pv a size).1 = 1) :
    (arena_init pv a size).2.offset = 0 ∧ (arena_init pv a size).2.offset_last = 0 ∧
    (arena_init pv a size).2.size = size := by
  rw [arena_init_acquire pv a size hb] at hok ⊢
  by_cases h : pv.call (if a.allocator = 0 then pv.allocator_default else a.allocator) size
      = ARENA_NULL
  · rw [if_pos h] at hok
    exact absurd hok (by simp)
  · rw [if_neg h]; exact ⟨rfl, rfl, rfl⟩

/-- C17: (a) on an arena with non-null base `arena_init` returns 1 and changes nothing;
(b) on an arena with null base, when the resolved allocator (the caller's when non-null, else
the default) returns a non-null block, it returns 1 with that block as base, the requested
size, and both offsets zero; so when `arena_init` succeeds after `arena_free` and on the
zeroed arena, both leave the same `offset`, `offset_last` and `size`. -/
theorem arena_init_success (pv : Provider) (a : arena) (size : Nat) :
    (a.base ≠ ARENA_NULL → arena_init pv a size = (1, a)) ∧
    (a.base = ARENA_NULL →
      pv.call (if a.allocator = 0 then pv.allocator_default else a.allocator) size
        ≠ ARENA_NULL →
      arena_init pv a size =
        (1, ⟨pv.call (if a.allocator = 0 then pv.allocator_default else a.allocator) size,
              0, 0, size,
              if a.allocator = 0 then pv.allocator_default else a.allocator,
              if a.deallocator = 0 then pv.deallocator_default else a.deallocator⟩)) ∧
    ((arena_init pv (arena_free a).1 size).1 = 1 → (arena_init pv arena0 size).1 = 1 →
      (arena_init pv (arena_free a).1 size).2.offset = (arena_init pv arena0 size).2.offset ∧
      (arena_init pv (arena_free a).1 size).2.offset_last
        = (arena_init pv arena0 size).2.offset_last ∧
      (arena_init pv (arena_free a).1 size).2.size = (arena_init pv arena0 size).2.size) := by
  refine ⟨fun h => ?_, fun hb hc => ?_, fun h1 h2 => ?_⟩
  · simp only [arena_init, if_neg h]
  · rw [arena_init_acquire pv a size hb, if_neg hc]
  · obtain ⟨x1, x2, x3⟩ := arena_init_acquire_ok pv _ size (arena_free_base a) h1
    obtain ⟨y1, y2, y3⟩ := arena_init_acquire_ok pv arena0 size rfl h2
    rw [x1, x2, x3, y1, y2, y3]
    exact ⟨rfl, rfl, rfl⟩

/-- C17 on a live arena, on the zeroed arena and on a released arena. -/
theorem arena_init_success_witness :
    arena_init pv0 ⟨65536, 64, 48, 10485760, 1, 2⟩ 4096 = (1, ⟨65536, 64, 48, 10485760, 1, 2⟩) ∧
    arena_init pv0 arena0 10485760 = (1, ⟨65536, 0, 0, 10485760, 1, 2⟩) ∧
    ((arena_init pv0 (arena_free ⟨65536, 64, 48, 10485760, 1, 2⟩).1 10485760).2.offset
        = (arena_init pv0 arena0 10485760).2.offset ∧
      (arena_init pv0 (arena_free ⟨65536, 64, 48, 10485760, 1, 2⟩).1 10485760).2.offset_last
        = (arena_init pv0 arena0 10485760).2.offset_last ∧
      (arena_init pv0 (arena_free ⟨65536, 64, 48, 10485760, 1, 2⟩).1 10485760).2.size
        = (arena_init pv0 arena0 10485760).2.size) :=
  ⟨(arena_init_success pv0 ⟨65536, 64, 48, 10485760, 1, 2⟩ 4096).1 (by decide),
   (arena_init_success pv0 arena0 10485760).2.1 (by decide) (by decide),
   (arena_init_success pv0 ⟨65536, 64, 48, 10485760, 1, 2⟩ 10485760).2.2 (by decide)
     (by decide)⟩

/-- C18 (counterexample): `arena_init` on the zeroed arena with a provider whose allocator
returns null. The call returns 0 and leaves base null, but the null `allocator` and
`deallocator` fields were replaced with the defaults before the allocation was tried. -/
theorem failed_init_sets_provider_fields :
    arena0.base = ARENA_NULL ∧
    pvFail.call pvFail.allocator_default 10485760 = ARENA_NULL ∧
    arena_init pvFail arena0 10485760 = (0, ⟨0, 0, 0, 0, 1, 2⟩) ∧
    (arena_init pvFail arena0 10485760).2 ≠ arena0 := by
  decide

/-- C18 (amended): on an arena with null base, when the resolved allocator returns null,
`arena_init` returns 0 and leaves base null and `size`, `offset`, `offset_last` unchanged;
a non-null `allocator` or `deallocator` field is unchanged and a null one holds the default
afterwards. -/
theorem arena_init_failure (pv : Provider) (a : arena) (size : Nat)
    (hb : a.base = ARENA_NULL)
    (hfail : pv.call (if a.allocator = 0 then pv.allocator_default else a.allocator) size
      = ARENA_NULL) :
    arena_init pv a size =
      (0, ⟨ARENA_NULL, a.offset, a.offset_last, a.size,
            if a.allocator = 0 then pv.allocator_default else a.allocator,
            if a.deallocator = 0 then pv.deallocator_default else a.deallocator⟩) := by
  rw [arena_init_acquire pv a size hb, if_pos hfail]

/-- C18 (amended) on an arena with its own allocator and no deallocator. -/
theorem arena_init_failure_witness :
    arena0.base = ARENA_NULL ∧
    arena_init pvFail ⟨0, 0, 0, 0, 7, 0⟩ 10485760 = (0, ⟨0, 0, 0, 0, 7, 2⟩) :=
  ⟨by decide, arena_init_failure pvFail ⟨0, 0, 0, 0, 7, 0⟩ 10485760 (by decide) (by decide)⟩

/-- C19: for a non-null pointer at offset `s < offset` from base that is not at
`offset_last`, a successful `arena_realloc` with `align new_size < 2 ^ 32` returns
`base + offset` and, for every `i < min (align new_size) (offset - s)`, the byte at
`result + i` after the call is the byte at `ptr + i` before the call, also when the source
range overlaps the new region. -/
theorem realloc_slow_preserves_prefix (a : arena) (m : Mem) (ptr new_size s : Nat)
    (hptr : ptr ≠ ARENA_NULL) (hs : ptr = a.base + s) (hlt : s < a.offset)
    (hnt : ptr ≠ a.base + a.offset_last)
    (hok : (arena_realloc a m ptr new_size).1 ≠ ARENA_NULL)
    (h32 : align new_size < 2 ^ 32) :
    (arena_realloc a m ptr new_size).1 = a.base + a.offset ∧
    ∀ i, i < min (align new_size) (a.offset - s) →
      (arena_realloc a m ptr new_size).2.2 ((arena_realloc a m ptr new_size).1 + i)
        = m (ptr + i) := by
  obtain ⟨hr, hmem⟩ := arena_realloc_slow a m ptr new_size hptr hnt hok
  have hn : new_size + 15 < 18446744073709551616 := by
    rw [align_eq] at h32; omega
  have hA : ARENA_ALIGN new_size = align new_size := ARENA_ALIGN_of_lt _ hn
  refine ⟨hr, fun i hi => ?_⟩
  rw [hr, hmem, hA]
  have hi' := Nat.lt_min.1 hi
  apply arena_memcpy_read m _ ptr _ i hi'.1
  intro _
  omega

/-- C19 on a 16-byte block grown to 64 bytes behind one other block: source and destination
overlap and the first 32 bytes are preserved. -/
theorem realloc_slow_preserves_prefix_witness :
    (65536 : Nat) ≠ ARENA_NULL ∧
    (arena_realloc ⟨65536, 32, 16, 10485760, 1, 2⟩ mem0 65536 64).1 = 65536 + 32 ∧
    ∀ i, i < min (align 64) (32 - 0) →
      (arena_realloc ⟨65536, 32, 16, 10485760, 1, 2⟩ mem0 65536 64).2.2
        ((arena_realloc ⟨65536, 32, 16, 10485760, 1, 2⟩ mem0 65536 64).1 + i)
        = mem0 (65536 + i) :=
  ⟨by decide,
   realloc_slow_preserves_prefix ⟨65536, 32, 16, 10485760, 1, 2⟩ mem0 65536 64 0 (by decide)
     (by decide) (by decide) (by decide) (by decide) (by decide)⟩


/-! ## C20 -/

theorem Bounds.loads_eq (b : Bounds) (m : Mem) (p k : Nat)
    (hlo : b.rlo ≤ p) (hhi : p + k ≤ b.rhi) :
    b.loads m p k = some (fun j => if j < k then m (p + j) else 0) := by
  induction k with
  | zero => simp [Bounds.loads]
  | succ k ih =>
    have ih' := ih (by omega)
    simp only [Bounds.loads, ih', Option.some_bind, Bounds.load]
    rw [if_pos (by omega)]
    simp only [Option.map_some']
    congr 1
    funext j
    by_cases h1 : j = k
    · subst h1; simp
    · by_cases h2 : j < k
      · simp [h1, h2, Nat.lt_succ_of_lt h2]
      · have h3 : ¬ j < k + 1 := by omega
        simp [h1, h2, h3]

theorem Bounds.stores_eq (b : Bounds) (m : Mem) (p : Nat) (w : Nat → Nat) (k : Nat)
    (hlo : b.wlo ≤ p) (hhi : p + k ≤ b.whi) :
    b.stores m p w k = some (fun q => if p ≤ q ∧ q < p + k then w (q - p) else m q) := by
  induction k with
  | zero =>
    simp only [Bounds.stores]
    congr 1
    funext q
    rw [if_neg (by omega)]
  | succ k ih =>
    have ih' := ih (by omega)
    simp only [Bounds.stores, ih', Option.some_bind, Bounds.store]
    rw [if_pos (by omega)]
    congr 1
    funext q
    by_cases h1 : q = p + k
    · subst h1
      rw [if_pos rfl, if_pos (by omega), Nat.add_sub_cancel_left]
    · rw [if_neg h1]
      by_cases h2 : p ≤ q ∧ q < p + k
      · rw [if_pos h2, if_pos (by omega)]
      · rw [if_neg h2, if_neg (by omega)]

theorem copy_word_checked_eq (b : Bounds) (m : Mem) (d s i : Nat)
    (hr : b.rlo ≤ s + i * 8 ∧ s + i * 8 + 8 ≤ b.rhi)
    (hw : b.wlo ≤ d + i * 8 ∧ d + i * 8 + 8 ≤ b.whi) :
    copy_word_checked b m d s i = some (copy_word m d s i) := by
  simp only [copy_word_checked, SIZEOF_ULONG]
  rw [Bounds.loads_eq b m _ 8 hr.1 hr.2, Option.some_bind,
    Bounds.stores_eq b m _ _ 8 hw.1 hw.2]
  congr 1
  funext q
  simp only [copy_word, SIZEOF_ULONG]
  by_cases h : d + i * 8 ≤ q ∧ q < d + i * 8 + 8
  · rw [if_pos h, if_pos h, if_pos (by omega)]
  · rw [if_neg h, if_neg h]

theorem copy_byte_checked_eq (b : Bounds) (m : Mem) (d s c i : Nat)
    (hr : b.rlo ≤ s + (c * 8 + i) ∧ s + (c * 8 + i) < b.rhi)
    (hw : b.wlo ≤ d + (c * 8 + i) ∧ d + (c * 8 + i) < b.whi) :
    copy_byte_checked b m d s c i = some (copy_byte m d s c i) := by
  simp only [copy_byte_checked, Bounds.load, Bounds.store, SIZEOF_ULONG]
  rw [if_pos hr, Option.some_bind, if_pos hw]
  rfl

theorem word_loop_checked_eq (b : Bounds) (m : Mem) (d s k : Nat)
    (hr : b.rlo ≤ s ∧ s + k * 8 ≤ b.rhi) (hw : b.wlo ≤ d ∧ d + k * 8 ≤ b.whi) :
    word_loop_checked b m d s k = some (word_loop m d s k) := by
  induction k with
  | zero => rfl
  | succ k ih =>
    have ih' := ih (by omega) (by omega)
    simp only [word_loop_checked, ih', Option.some_bind, word_loop]
    exact copy_word_checked_eq b _ d s k (by omega) (by omega)

theorem byte_loop_checked_eq (b : Bounds) (m : Mem) (d s c k : Nat)
    (hr : b.rlo ≤ s ∧ s + (c * 8 + k) ≤ b.rhi) (hw : b.wlo ≤ d ∧ d + (c * 8 + k) ≤ b.whi) :
    byte_loop_checked b m d s c k = some (byte_loop m d s c k) := by
  induction k with
  | zero => rfl
  | succ k ih =>
    have ih' := ih (by omega) (by omega)
    simp only [byte_loop_checked, ih', Option.some_bind, byte_loop]
    exact copy_byte_checked_eq b _ d s c k (by omega) (by omega)

/-- A copy whose source range lies within the load range and whose destination range lies
within the store range passes every check and yields the memory `arena_memcpy` computes. -/
theorem arena_memcpy_checked_eq (b : Bounds) (m : Mem) (dest src n : Nat)
    (hr : b.rlo ≤ src ∧ src + n ≤ b.rhi) (hw : b.wlo ≤ dest ∧ dest + n ≤ b.whi) :
    arena_memcpy_checked b m dest src n = some (arena_memcpy m dest src n) := by
  have hn : n / 8 * 8 + n % 8 = n := by omega
  simp only [arena_memcpy_checked, arena_memcpy, SIZEOF_ULONG]
  split
  · rfl
  · rw [word_loop_checked_eq b m dest src (n / 8) (by omega) (by omega), Option.some_bind]
    split
    · exact byte_loop_checked_eq b _ dest src (n / 8) (n % 8) (by omega) (by omega)
    · rfl


theorem Bounds.loads_some (b : Bounds) (m : Mem) (p k : Nat) (w : Nat → Nat)
    (h : b.loads m p k = some w) : ∀ j, j < k → b.rlo ≤ p + j ∧ p + j < b.rhi := by
  induction k generalizing w with
  | zero => intro j hj; omega
  | succ k ih =>
    simp only [Bounds.loads, Option.bind_eq_some] at h
    obtain ⟨w0, h0, h1⟩ := h
    have hk : b.rlo ≤ p + k ∧ p + k < b.rhi := by
      simp only [Bounds.load] at h1
      by_contra hc
      rw [if_neg hc] at h1
      simp at h1
    intro j hj
    by_cases hjk : j = k
    · subst hjk; exact hk
    · exact ih w0 h0 j (by omega)

theorem Bounds.stores_some (b : Bounds) (m : Mem) (p : Nat) (w : Nat → Nat) (k : Nat)
    (m' : Mem) (h : b.stores m p w k = some m') :
    ∀ j, j < k → b.wlo ≤ p + j ∧ p + j < b.whi := by
  induction k generalizing m' with
  | zero => intro j hj; omega
  | succ k ih =>
    simp only [Bounds.stores, Option.bind_eq_some] at h
    obtain ⟨m1, h0, h1⟩ := h
    have hk : b.wlo ≤ p + k ∧ p + k < b.whi := by
      simp only [Bounds.store] at h1
      by_contra hc
      rw [if_neg hc] at h1
      simp at h1
    intro j hj
    by_cases hjk : j = k
    · subst hjk; exact hk
    · exact ih m1 h0 j (by omega)

theorem word_loop_checked_some (b : Bounds) (m : Mem) (d s k : Nat) (m' : Mem)
    (h : word_loop_checked b m d s k = some m') :
    ∀ j, j < k * 8 →
      (b.rlo ≤ s + j ∧ s + j < b.rhi) ∧ (b.wlo ≤ d + j ∧ d + j < b.whi) := by
  induction k generalizing m' with
  | zero => intro j hj; omega
  | succ k ih =>
    simp only [word_loop_checked, Option.bind_eq_some] at h
    obtain ⟨m1, h0, h1⟩ := h
    simp only [copy_word_checked, Option.bind_eq_some, SIZEOF_ULONG] at h1
    obtain ⟨w, hl, hs⟩ := h1
    intro j hj
    by_cases hjk : j < k * 8
    · exact ih m1 h0 j hjk
    · have e : j = k * 8 + (j - k * 8) := by omega
      have hl' := Bounds.loads_some b m1 _ 8 w hl (j - k * 8) (by omega)
      have hs' := Bounds.stores_some b m1 _ w 8 m' hs (j - k * 8) (by omega)
      refine ⟨⟨?_, ?_⟩, ⟨?_, ?_⟩⟩ <;> omega

theorem byte_loop_checked_some (b : Bounds) (m : Mem) (d s c k : Nat) (m' : Mem)
    (h : byte_loop_checked b m d s c k = some m') :
    ∀ j, j < k →
      (b.rlo ≤ s + (c * 8 + j) ∧ s + (c * 8 + j) < b.rhi) ∧
      (b.wlo ≤ d + (c * 8 + j) ∧ d + (c * 8 + j) < b.whi) := by
  induction k generalizing m' with
  | zero => intro j hj; omega
  | succ k ih =>
    simp only [byte_loop_checked, Option.bind_eq_some] at h
    obtain ⟨m1, h0, h1⟩ := h
    simp only [copy_byte_checked, Option.bind_eq_some, SIZEOF_ULONG] at h1
    obtain ⟨v, hl, hs⟩ := h1
    have hk1 : b.rlo ≤ s + (c * 8 + k) ∧ s + (c * 8 + k) < b.rhi := by
      simp only [Bounds.load] at hl
      by_contra hc
      rw [if_neg hc] at hl
      simp at hl
    have hk2 : b.wlo ≤ d + (c * 8 + k) ∧ d + (c * 8 + k) < b.whi := by
      simp only [Bounds.store] at hs
      by_contra hc
      rw [if_neg hc] at hs
      simp at hs
    intro j hj
    by_cases hjk : j = k
    · subst hjk; exact ⟨hk1, hk2⟩
    · exact ih m1 h0 j (by omega)

/-- The checks bite: when the checked copy of `n` bytes between distinct addresses returns a
memory, every source byte lies in the load range and every destination byte in the store
range. -/
theorem arena_memcpy_checked_some (b : Bounds) (m : Mem) (dest src n : Nat) (m' : Mem)
    (hne : dest ≠ src) (h : arena_memcpy_checked b m dest src n = some m') :
    ∀ j, j < n →
      (b.rlo ≤ src + j ∧ src + j < b.rhi) ∧ (b.wlo ≤ dest + j ∧ dest + j < b.whi) := by
  simp only [arena_memcpy_checked, if_neg hne, Option.bind_eq_some, SIZEOF_ULONG] at h
  obtain ⟨m1, hw, hb⟩ := h
  intro j hj
  by_cases hjk : j < n / 8 * 8
  · exact word_loop_checked_some b m dest src _ m1 hw j hjk
  · have hr : 0 < n % 8 := by omega
    rw [if_pos hr] at hb
    have := byte_loop_checked_some b m1 dest src (n / 8) (n % 8) m' hb (j - n / 8 * 8)
      (by omega)
    have e : n / 8 * 8 + (j - n / 8 * 8) = j := by omega
    rw [e] at this
    exact this


/-- When the source range and the new region lie within the bounds, `arena_realloc` with
checked accesses returns what `arena_realloc` returns. -/
theorem arena_realloc_checked_eq (b : Bounds) (a : arena) (m : Mem) (ptr n : Nat)
    (hr : b.rlo ≤ ptr ∧ ptr + ARENA_ALIGN n ≤ b.rhi)
    (hw : b.wlo ≤ a.base + a.offset ∧ a.base + a.offset + ARENA_ALIGN n ≤ b.whi) :
    arena_realloc_checked b a m ptr n = some (arena_realloc a m ptr n) := by
  have hm := arena_malloc_result a (ARENA_ALIGN n)
  have hcopy : (arena_malloc a (ARENA_ALIGN n)).1 ≠ ARENA_NULL →
      arena_memcpy_checked b m (arena_malloc a (ARENA_ALIGN n)).1 ptr (ARENA_ALIGN n)
        = some (arena_memcpy m (arena_malloc a (ARENA_ALIGN n)).1 ptr (ARENA_ALIGN n)) := by
    intro h
    rw [(hm h).1]
    exact arena_memcpy_checked_eq b m _ ptr _ hr hw
  simp only [arena_realloc_checked, arena_realloc]
  split_ifs with h1 h2 h3 h4 h5
  · rfl
  · rfl
  · rw [hcopy h4]; rfl
  · rfl
  · rw [hcopy h5]; rfl
  · rfl

/-- A successful `arena_realloc` on a non-null pointer that does not resize in place
returns the block `arena_malloc` hands out at `base + offset` and copies into it. -/
theorem arena_realloc_not_in_place (a : arena) (m : Mem) (ptr n : Nat)
    (hptr : ptr ≠ ARENA_NULL) (hnot : ¬ Call.inPlace a (.realloc ptr n))
    (hok : (arena_realloc a m ptr n).1 ≠ ARENA_NULL) :
    (arena_realloc a m ptr n).1 = a.base + a.offset ∧
    (arena_realloc a m ptr n).2.2 = arena_memcpy m (a.base + a.offset) ptr (ARENA_ALIGN n) ∧
    ul_add a.offset (ARENA_ALIGN n % UINT_MOD) ≤ a.size := by
  have hm := arena_malloc_result a (ARENA_ALIGN n)
  rw [ARENA_ALIGN_idem] at hm
  simp only [Call.inPlace] at hnot
  simp only [arena_realloc, if_neg hptr] at hok ⊢
  split_ifs at hok ⊢ with h1 h2 h3 h4
  · exact absurd ⟨hptr, h1, h2⟩ hnot
  · exact ⟨(hm h3).1, by rw [(hm h3).1], (hm h3).2⟩
  · exact absurd hok h3
  · exact ⟨(hm h4).1, by rw [(hm h4).1], (hm h4).2⟩
  · exact absurd hok h4

/-- C20: in an arena state with `offset ≤ size` and capacity at most `2 ^ 64 - 2 ^ 32`
(every block a provider can hand out in a 64-bit address space), for a non-null pointer at
offset `s ≤ offset` from base and `align new_size < 2 ^ 32`, when `arena_realloc` does not
resize in place and succeeds: run with checked accesses, loads confined to
`[s, s + align new_size)` and stores to `[offset, offset + align new_size)` (offsets from
base), `arena_realloc` passes every check and returns what `arena_realloc` returns; so
does the run checked against the block `[0, size)`; and both ranges lie within
`[0, size)`. -/
theorem slow_copy_in_block (a : arena) (m : Mem) (ptr new_size s : Nat)
    (hoff : a.offset ≤ a.size) (hcap : a.size + UINT_MOD ≤ ULONG_MOD)
    (hptr : ptr ≠ ARENA_NULL) (hs : ptr = a.base + s) (hle : s ≤ a.offset)
    (h32 : align new_size < 2 ^ 32)
    (hslow : ¬ Call.inPlace a (.realloc ptr new_size))
    (hok : (arena_realloc a m ptr new_size).1 ≠ ARENA_NULL) :
    arena_realloc_checked
        ⟨a.base + s, a.base + s + align new_size,
         a.base + a.offset, a.base + a.offset + align new_size⟩ a m ptr new_size
      = some (arena_realloc a m ptr new_size) ∧
    arena_realloc_checked ⟨a.base, a.base + a.size, a.base, a.base + a.size⟩ a m ptr new_size
      = some (arena_realloc a m ptr new_size) ∧
    s + align new_size ≤ a.size ∧ a.offset + align new_size ≤ a.size := by
  obtain ⟨_, _, hfit⟩ := arena_realloc_not_in_place a m ptr new_size hptr hslow hok
  rw [ULONG_MOD_val, UINT_MOD_val] at hcap
  have hn : new_size + 15 < 18446744073709551616 := by
    rw [align_eq] at h32; omega
  have hA : ARENA_ALIGN new_size = align new_size := ARENA_ALIGN_of_lt _ hn
  rw [hA] at hfit
  simp only [ul_add, ULONG_MOD_val, UINT_MOD_val] at hfit
  have hfit' : a.offset + align new_size ≤ a.size := by omega
  have hr1 : a.base + s ≤ ptr ∧ ptr + ARENA_ALIGN new_size ≤ a.base + s + align new_size := by
    rw [hA, hs]; exact ⟨Nat.le_refl _, Nat.le_refl _⟩
  have hw1 : a.base + a.offset ≤ a.base + a.offset ∧
      a.base + a.offset + ARENA_ALIGN new_size ≤ a.base + a.offset + align new_size := by
    rw [hA]; exact ⟨Nat.le_refl _, Nat.le_refl _⟩
  have hr2 : a.base ≤ ptr ∧ ptr + ARENA_ALIGN new_size ≤ a.base + a.size := by
    rw [hA, hs]; omega
  have hw2 : a.base ≤ a.base + a.offset ∧
      a.base + a.offset + ARENA_ALIGN new_size ≤ a.base + a.size := by
    rw [hA]; omega
  exact ⟨arena_realloc_checked_eq _ a m ptr new_size hr1 hw1,
    arena_realloc_checked_eq _ a m ptr new_size hr2 hw2, by omega, hfit'⟩

/-- C20 on a 16-byte block grown to 64 bytes behind one other block. -/
theorem slow_copy_in_block_witness :
    (65536 : Nat) ≠ ARENA_NULL ∧
    ¬ Call.inPlace ⟨65536, 32, 16, 10485760, 1, 2⟩ (.realloc 65536 64) ∧
    (arena_realloc ⟨65536, 32, 16, 10485760, 1, 2⟩ mem0 65536 64).1 ≠ ARENA_NULL ∧
    arena_realloc_checked ⟨65536 + 0, 65536 + 0 + align 64, 65536 + 32, 65536 + 32 + align 64⟩
        ⟨65536, 32, 16, 10485760, 1, 2⟩ mem0 65536 64
      = some (arena_realloc ⟨65536, 32, 16, 10485760, 1, 2⟩ mem0 65536 64) ∧
    arena_realloc_checked ⟨65536, 65536 + 10485760, 65536, 65536 + 10485760⟩
        ⟨65536, 32, 16, 10485760, 1, 2⟩ mem0 65536 64
      = some (arena_realloc ⟨65536, 32, 16, 10485760, 1, 2⟩ mem0 65536 64) ∧
    0 + align 64 ≤ 10485760 ∧ 32 + align 64 ≤ 10485760 :=
  ⟨by decide, by decide, by decide,
   slow_copy_in_block ⟨65536, 32, 16, 10485760, 1, 2⟩ mem0 65536 64 0 (by decide) (by decide)
     (by decide) (by decide) (by decide) (by decide) (by decide) (by decide)⟩

/-- The checks are live: with a store range one byte short of the new region the same call
fails. -/
theorem checked_copy_rejects_short_range :
    (arena_realloc_checked ⟨65536, 65536 + 64, 65536 + 32, 65536 + 32 + 63⟩
        ⟨65536, 32, 16, 10485760, 1, 2⟩ mem0 65536 64).isSome = false ∧
    (arena_realloc_checked ⟨65536, 65536 + 63, 65536 + 32, 65536 + 32 + 64⟩
        ⟨65536, 32, 16, 10485760, 1, 2⟩ mem0 65536 64).isSome = false := by
  decide

/-- Role of the capacity bound: in an arena of `2 ^ 64 - 16` bytes with
`offset = 2 ^ 64 - 32` the sum `offset + 64` of the capacity check wraps to 32, the
allocation succeeds, and the copy checked against the block's bounds fails. -/
theorem capacity_check_wraps_above_bound :
    (arena_realloc ⟨16, 18446744073709551584, 16, 18446744073709551600, 1, 2⟩ mem0 16 64).1
      = 16 + 18446744073709551584 ∧
    ¬ (18446744073709551584 + align 64 ≤ 18446744073709551600) ∧
    (arena_realloc_checked
        ⟨16, 16 + 18446744073709551600, 16, 16 + 18446744073709551600⟩
        ⟨16, 18446744073709551584, 16, 18446744073709551600, 1, 2⟩ mem0 16 64).isSome
      = false := by
  decide

end Arena
